import Mathlib

/-!
CodeNEST project tracker: the REST back end (`server.js`) and the client form.

A shallow embedding of the Express handlers of `project-tracker-frontend/server.js`
and of the Mongoose schemas they persist through, with the two expressions of the client
(`src/App.js`) that turn the tech-stack field of the form into a sequence and back.

Conventions of the embedding.

* The two collections are lists of documents in insertion order (`Db`); a handler is a
  function from the database, the environment of the call (clock, the identifier and the
  salt that the drivers generate) and the request to the new database and the response.
* Request bodies are JSON objects whose fields, when present, are strings; `techStack`
  is a string or an array of strings.  JavaScript truthiness on such a field is `truthy`.
* The schema options are embedded as Mongoose applies them: `trim` and `lowercase` are
  setters, run on every assignment to the path and on query conditions; `required`
  is a validator run by `save()` (an empty string fails it); `unique` is an index that
  makes an insert with a duplicate key fail.  The internal version key `__v` is left out.
* `bcryptjs` and `jsonwebtoken` are taken as a parameter (`Libs`): the handlers are
  verified for every implementation of these two libraries.
* `String.prototype.toLowerCase` is the Unicode case conversion of the runtime: on a
  string of ASCII characters it is computed here (only `A`-`Z` change), on any other
  string it is the field `unicodeToLowerCase` of the same parameter, so that the handlers
  are verified for every case conversion.
* A route parameter `:id` is the raw string of the URL; Mongoose casts it to an ObjectId
  (24 hexadecimal digits) and the query throws a `CastError` when the cast fails.
* The database is up: the only exceptions are those Mongoose raises on the data (cast,
  validation, duplicate key), which the `catch` block of each handler turns into 500.
-/

namespace CodeNEST

/-! ## JavaScript strings -/

/-- JavaScript `s.length`: the number of UTF-16 code units of the string. -/
def jsLength (s : String) : Nat :=
  (s.data.map (fun c => if c.toNat < 65536 then 1 else 2)).sum

/-- The code points that `String.prototype.trim` strips (WhiteSpace and LineTerminator). -/
def isJsWhiteSpace (c : Char) : Bool :=
  [9, 10, 11, 12, 13, 32, 160, 5760, 8192, 8193, 8194, 8195, 8196, 8197, 8198, 8199, 8200,
    8201, 8202, 8232, 8233, 8239, 8287, 12288, 65279].contains c.toNat

/-- JavaScript `s.trim()`. -/
def trim (s : String) : String :=
  ⟨(s.data.dropWhile isJsWhiteSpace).rdropWhile isJsWhiteSpace⟩

/-- Whether every character of the string is ASCII. -/
def isAscii (s : String) : Bool :=
  s.data.all (fun c => decide (c.toNat < 128))

/-- JavaScript `s.toLowerCase()` on a string of ASCII characters: among these only `A`
to `Z` have a lower-case mapping. -/
def asciiToLowerCase (s : String) : String :=
  ⟨s.data.map Char.toLower⟩

/-- JavaScript truthiness of a body field that is `undefined` or a string: `!!v`. -/
def truthy : Option String → Bool
  | none => false
  | some s => decide (s ≠ "")

/-- One segment of `s.split(sep)`: the characters up to the first separator, and the rest
after it when there is a separator. -/
def splitFirst (sep : Char) : List Char → List Char × Option (List Char)
  | [] => ([], none)
  | c :: cs =>
    if c = sep then ([], some cs)
    else
      let r := splitFirst sep cs
      (c :: r.1, r.2)

/-- JavaScript `s.split(sep)[1]` for a one-character separator: the second segment,
`undefined` when the string has no separator. -/
def splitSecond (sep : Char) (s : String) : Option String :=
  match (splitFirst sep s.data).2 with
  | none => none
  | some rest => some ⟨(splitFirst sep rest).1⟩

/-! ## Documents and the database -/

/-- A MongoDB ObjectId. -/
abbrev ObjectId := Nat

/-- A `Date`, in milliseconds since the epoch (`Date.now()`). -/
abbrev Millis := Nat

/-- A document of the `User` model (`userSchema`). -/
structure User where
  _id : ObjectId
  name : String
  email : String
  password : String
  createdAt : Millis
deriving DecidableEq, Repr

/-- A document of the `Project` model (`projectSchema`). -/
structure Project where
  _id : ObjectId
  userId : ObjectId
  title : String
  description : String
  githubLink : String
  techStack : List String
  createdAt : Millis
  updatedAt : Millis
deriving DecidableEq, Repr

/-- The two collections, each in insertion order. -/
structure Db where
  users : List User
  projects : List Project
deriving DecidableEq, Repr

/-- What the drivers and the clock supply to one request: `Date.now()`, the ObjectId
generated for a new document, and the salt of `bcrypt.genSalt(10)`. -/
structure Env where
  now : Millis
  freshId : ObjectId
  salt : String
deriving DecidableEq, Repr

/-- The errors a Mongoose call throws; every handler catches them and answers 500. -/
inductive DbError where
  | castError
  | validationError
  | duplicateKey
deriving DecidableEq, Repr

/-! ## The libraries and the runtime: `bcryptjs`, `jsonwebtoken`, case conversion -/

/-- The payload of a token: what the handlers sign, with the `iat` and `exp` claims that
`jwt.sign` adds (in seconds). -/
structure Claims where
  id : ObjectId
  email : String
  iat : Nat
  exp : Nat
deriving DecidableEq, Repr

/-- The two libraries and the case conversion of the runtime.  `jwtEncode` signs and
serialises a payload with a key; `jwtDecode` parses a token and checks its signature
against a key; `unicodeToLowerCase` is `String.prototype.toLowerCase` (the Unicode default
case conversion) on the strings that are not made of ASCII characters only. -/
structure Libs where
  bcryptHash : String → String → String
  bcryptCompare : String → String → Bool
  jwtEncode : Claims → String → String
  jwtDecode : String → String → Option Claims
  unicodeToLowerCase : String → String

/-- JavaScript `s.toLowerCase()`: computed on a string of ASCII characters, the case
conversion of the runtime on any other. -/
def toLowerCase (lib : Libs) (s : String) : String :=
  if isAscii s then asciiToLowerCase s else lib.unicodeToLowerCase s

/-- Case conversion leaves white space alone: lower-casing what is left of a string when
its outer white space is trimmed is trimming the lower-cased string.  The Unicode
conversion is so: it maps no white space and maps nothing to white space. -/
def CaseKeepsSpace (lib : Libs) : Prop :=
  ∀ s : String, toLowerCase lib (trim s) = trim (toLowerCase lib s)

/-- Lower-casing twice is lower-casing once. -/
def CaseIdempotent (lib : Libs) : Prop :=
  ∀ s : String, toLowerCase lib (toLowerCase lib s) = toLowerCase lib s

/-! ## Schema setters, casts and validators -/

/-- The setters of `userSchema.email` (`lowercase: true, trim: true`); Mongoose runs the
setters of a path from the last declared to the first, so `trim` runs before
`toLowerCase`. -/
def castEmail (lib : Libs) (email : String) : String :=
  toLowerCase lib (trim email)

/-- Value of a hexadecimal digit. -/
def hexDigit (c : Char) : Option Nat :=
  if 48 ≤ c.toNat ∧ c.toNat ≤ 57 then some (c.toNat - 48)
  else if 97 ≤ c.toNat ∧ c.toNat ≤ 102 then some (c.toNat - 87)
  else if 65 ≤ c.toNat ∧ c.toNat ≤ 70 then some (c.toNat - 55)
  else none

/-- Mongoose's cast of a route parameter to an ObjectId: a string of 24 hexadecimal
digits, anything else is a `CastError`. -/
def castObjectId (s : String) : Option ObjectId :=
  if s.data.length = 24 then
    s.data.foldl (fun acc c => acc.bind (fun n => (hexDigit c).map (fun d => 16 * n + d))) (some 0)
  else none

/-- `User.findOne({ email })`: the condition is cast with the setters of the path. -/
def User.findOne (lib : Libs) (users : List User) (email : String) : Option User :=
  users.find? (fun u => decide (u.email = castEmail lib email))

/-- `User.findById(id)`. -/
def User.findById (users : List User) (id : ObjectId) : Option User :=
  users.find? (fun u => decide (u._id = id))

/-- `new User({ name, email, password })`: setters applied, `createdAt` defaulted. -/
def User.new (lib : Libs) (env : Env) (name email password : String) : User :=
  { _id := env.freshId, name := trim name, email := castEmail lib email, password := password,
    createdAt := env.now }

/-- `user.save()` of a new document: the `required` validators, then the insert, which
fails on a duplicate `_id` or a duplicate `email` (unique index). -/
def User.save (db : Db) (u : User) : Except DbError Db :=
  if u.name = "" ∨ u.email = "" ∨ u.password = "" then .error .validationError
  else if db.users.any (fun v => decide (v._id = u._id)) then .error .duplicateKey
  else if db.users.any (fun v => decide (v.email = u.email)) then .error .duplicateKey
  else .ok { db with users := db.users ++ [u] }

/-- `Project.findOne({ _id: id, userId })`: `id` is cast to an ObjectId first. -/
def Project.findOne (projects : List Project) (id : String) (userId : ObjectId) :
    Except DbError (Option Project) :=
  match castObjectId id with
  | none => .error .castError
  | some oid => .ok (projects.find? (fun p => decide (p._id = oid) && decide (p.userId = userId)))

/-- The `required` validators of `projectSchema` that a string can fail. -/
def Project.validate (p : Project) : Bool :=
  decide (p.title ≠ "") && decide (p.description ≠ "")

/-- `project.save()` of a new document. -/
def Project.insert (db : Db) (p : Project) : Except DbError Db :=
  if ¬ p.validate then .error .validationError
  else if db.projects.any (fun q => decide (q._id = p._id)) then .error .duplicateKey
  else .ok { db with projects := db.projects ++ [p] }

/-- The write of `project.save()` for a loaded document (`updateOne` on `_id`): the first
stored document with that `_id` is replaced. -/
def replaceById (p : Project) : List Project → List Project
  | [] => []
  | q :: qs => if q._id = p._id then p :: qs else q :: replaceById p qs

/-- `project.save()` of a document loaded by `findOne`: validation, then the write. -/
def Project.save (db : Db) (p : Project) : Except DbError Db :=
  if ¬ p.validate then .error .validationError
  else .ok { db with projects := replaceById p db.projects }

/-- `Project.findOneAndDelete({ _id: id, userId })`: the first match is removed and
returned. -/
def Project.findOneAndDelete (db : Db) (id : String) (userId : ObjectId) :
    Except DbError (Option Project × Db) :=
  match Project.findOne db.projects id userId with
  | .error e => .error e
  | .ok none => .ok (none, db)
  | .ok (some p) => .ok (some p, { db with projects := db.projects.erase p })

/-! ## Requests and responses -/

/-- The `techStack` field of a request body: a string or an array of strings. -/
inductive TechStackInput where
  | str (s : String)
  | arr (xs : List String)
deriving DecidableEq, Repr

/-- JavaScript truthiness of the `techStack` field: every array is truthy, the empty
one included. -/
def truthyTech : Option TechStackInput → Bool
  | none => false
  | some (.str s) => decide (s ≠ "")
  | some (.arr _) => true

/-- The body of `POST /api/auth/register` and `POST /api/auth/login`. -/
structure AuthBody where
  name : Option String
  email : Option String
  password : Option String
deriving DecidableEq, Repr

/-- The body of `POST /api/projects` and `PUT /api/projects/:id`.  `userId` stands for a
field the handlers never read. -/
structure ProjectBody where
  title : Option String
  description : Option String
  githubLink : Option String
  techStack : Option TechStackInput
  userId : Option String
deriving DecidableEq, Repr

/-- A JSON value at a leaf of a response body.  An ObjectId is serialised as its 24
hexadecimal digits and a date as its ISO string. -/
inductive JVal where
  | str (s : String)
  | oid (n : ObjectId)
  | date (ms : Millis)
  | strs (xs : List String)
deriving DecidableEq, Repr

/-- A field of a response object: a leaf or a nested object. -/
inductive JField where
  | leaf (v : JVal)
  | sub (fields : List (String × JVal))
deriving DecidableEq, Repr

/-- A response body: an object or an array of objects. -/
inductive Json where
  | obj (fields : List (String × JField))
  | arr (items : List (List (String × JVal)))
deriving DecidableEq, Repr

/-- The outcome of `res.status(s).json(body)`. -/
structure Response where
  status : Nat
  body : Json
deriving DecidableEq, Repr

/-- The body of every error answer: an object with the one field `error`. -/
def errorBody (msg : String) : Json :=
  .obj [("error", .leaf (.str msg))]

/-- The answer of the `catch` block of every handler. -/
def serverError : Response :=
  { status := 500, body := errorBody "Server error" }

/-- The fields of a `Project` document as `res.json(project)` serialises it. -/
def Project.toFields (p : Project) : List (String × JVal) :=
  [("_id", .oid p._id), ("userId", .oid p.userId), ("title", .str p.title),
    ("description", .str p.description), ("githubLink", .str p.githubLink),
    ("techStack", .strs p.techStack), ("createdAt", .date p.createdAt),
    ("updatedAt", .date p.updatedAt)]

/-- Serialisation of `res.json(project)`. -/
def Project.toJson (p : Project) : Json :=
  .obj (p.toFields.map (fun kv => (kv.1, JField.leaf kv.2)))

/-- The public user object that register, login and me build by hand. -/
def publicUser (u : User) : List (String × JVal) :=
  [("id", .oid u._id), ("name", .str u.name), ("email", .str u.email)]

/-- All the field names of a response body, nested ones included. -/
def Json.keys : Json → List String
  | .obj fields =>
    fields.flatMap (fun kv =>
      match kv.2 with
      | .leaf _ => [kv.1]
      | .sub o => kv.1 :: o.map Prod.fst)
  | .arr items => items.flatMap (fun o => o.map Prod.fst)

/-! ## Tokens: `jsonwebtoken` -/

/-- `JWT_SECRET`. -/
def JWT_SECRET : String := "your-secret-key-change-in-production"

/-- Seven days in seconds: the `expiresIn: 7d` of both `jwt.sign` calls. -/
def SEVEN_DAYS : Nat := 604800

/-- `jwt.sign({ id, email }, JWT_SECRET, { expiresIn: 7d })`: `iat` is the clock in
seconds and `exp` is `iat` plus seven days. -/
def jwtSign (lib : Libs) (now : Millis) (id : ObjectId) (email : String) : String :=
  lib.jwtEncode { id := id, email := email, iat := now / 1000, exp := now / 1000 + SEVEN_DAYS }
    JWT_SECRET

/-- `jwt.verify(token, JWT_SECRET)`: the token must decode under the key and its `exp`
must lie after the clock; `none` stands for the exception. -/
def jwtVerify (lib : Libs) (now : Millis) (token : String) : Option Claims :=
  match lib.jwtDecode token JWT_SECRET with
  | none => none
  | some c => if c.exp ≤ now / 1000 then none else some c

/-! ## The middleware -/

/-- `authenticateToken`: the token is the second segment of the `Authorization` header
split on spaces; the result is the answer sent (401 or 403) or `req.user`. -/
def authenticateToken (lib : Libs) (now : Millis) (authHeader : Option String) :
    Except Response Claims :=
  let token : Option String :=
    match authHeader with
    | none => none
    | some h => if h = "" then some "" else splitSecond ' ' h
  match token with
  | none => .error { status := 401, body := errorBody "Access denied. No token provided." }
  | some t =>
    if t = "" then
      .error { status := 401, body := errorBody "Access denied. No token provided." }
    else
      match jwtVerify lib now t with
      | some verified => .ok verified
      | none => .error { status := 403, body := errorBody "Invalid token" }

/-- A route behind `authenticateToken`: the handler runs only when the middleware calls
`next()`, otherwise the answer of the middleware is sent and nothing else happens. -/
def withAuth (lib : Libs) (now : Millis) (authHeader : Option String) (db : Db)
    (handler : Claims → Db × Response) : Db × Response :=
  match authenticateToken lib now authHeader with
  | .error res => (db, res)
  | .ok user => handler user

/-! ## The handlers

Each handler is the function passed to `app.METHOD(path, ...)`; those behind
`authenticateToken` take `req.user` as the argument `user`. -/

/-- The body of a successful register or login: the token and the public user. -/
def authBody (token : String) (u : User) : Json :=
  .obj [("token", .leaf (.str token)), ("user", .sub (publicUser u))]

/-- Handler of `POST /api/auth/register`. -/
def register (lib : Libs) (env : Env) (db : Db) (body : AuthBody) : Db × Response :=
  if ¬ truthy body.name ∨ ¬ truthy body.email ∨ ¬ truthy body.password then
    (db, { status := 400, body := errorBody "All fields are required" })
  else
    let name := body.name.getD ""
    let email := body.email.getD ""
    let password := body.password.getD ""
    if jsLength password < 6 then
      (db, { status := 400, body := errorBody "Password must be at least 6 characters" })
    else
      match User.findOne lib db.users email with
      | some _ => (db, { status := 400, body := errorBody "User already exists" })
      | none =>
        let hashedPassword := lib.bcryptHash password env.salt
        let user := User.new lib env name email hashedPassword
        match User.save db user with
        | .error _ => (db, serverError)
        | .ok db2 =>
          let token := jwtSign lib env.now user._id user.email
          (db2, { status := 201, body := authBody token user })

/-- Handler of `POST /api/auth/login`. -/
def login (lib : Libs) (env : Env) (db : Db) (body : AuthBody) : Db × Response :=
  if ¬ truthy body.email ∨ ¬ truthy body.password then
    (db, { status := 400, body := errorBody "All fields are required" })
  else
    let email := body.email.getD ""
    let password := body.password.getD ""
    match User.findOne lib db.users email with
    | none => (db, { status := 400, body := errorBody "Invalid credentials" })
    | some user =>
      if ¬ lib.bcryptCompare password user.password then
        (db, { status := 400, body := errorBody "Invalid credentials" })
      else
        let token := jwtSign lib env.now user._id user.email
        (db, { status := 200, body := authBody token user })

/-- Handler of `GET /api/auth/me`. -/
def me (db : Db) (user : Claims) : Db × Response :=
  match User.findById db.users user.id with
  | none => (db, { status := 404, body := errorBody "User not found" })
  | some u => (db, { status := 200, body := .obj ((publicUser u).map (fun kv => (kv.1, JField.leaf kv.2))) })

/-- Handler of `GET /api/projects`: the caller's projects, sorted by `createdAt`
descending. -/
def listProjects (db : Db) (user : Claims) : Db × Response :=
  let projects := (db.projects.filter (fun p => decide (p.userId = user.id))).insertionSort
    (fun a b => b.createdAt ≤ a.createdAt)
  (db, { status := 200, body := .arr (projects.map Project.toFields) })

/-- Handler of `GET /api/projects/:id`. -/
def getProject (db : Db) (user : Claims) (id : String) : Db × Response :=
  match Project.findOne db.projects id user.id with
  | .error _ => (db, serverError)
  | .ok none => (db, { status := 404, body := errorBody "Project not found" })
  | .ok (some project) => (db, { status := 200, body := project.toJson })

/-- JavaScript `githubLink || ''` on a field that is `undefined` or a string. -/
def orEmpty (v : Option String) : String :=
  if truthy v then v.getD "" else ""

/-- JavaScript `Array.isArray(techStack) ? techStack : [techStack]`. -/
def toArray : TechStackInput → List String
  | .arr xs => xs
  | .str s => [s]

/-- `new Project({ userId, title, description, githubLink, techStack })`: the `trim`
setters of `title`, `githubLink` and of the entries of `techStack` applied, both dates
defaulted. -/
def Project.new (env : Env) (userId : ObjectId) (title description githubLink : String)
    (techStack : List String) : Project :=
  { _id := env.freshId, userId := userId, title := trim title, description := description,
    githubLink := trim githubLink, techStack := techStack.map trim, createdAt := env.now,
    updatedAt := env.now }

/-- Handler of `POST /api/projects`. -/
def createProject (env : Env) (db : Db) (user : Claims) (body : ProjectBody) : Db × Response :=
  if ¬ truthy body.title ∨ ¬ truthy body.description ∨ ¬ truthyTech body.techStack then
    (db, { status := 400, body := errorBody "Title, description, and tech stack are required" })
  else
    let project := Project.new env user.id (body.title.getD "") (body.description.getD "")
      (orEmpty body.githubLink) (toArray (body.techStack.getD (.arr [])))
    match Project.insert db project with
    | .error _ => (db, serverError)
    | .ok db2 => (db2, { status := 201, body := project.toJson })

/-- The assignments of the update handler, in order, on the loaded document. -/
def applyUpdate (env : Env) (body : ProjectBody) (project : Project) : Project :=
  let p1 := if truthy body.title then { project with title := trim (body.title.getD "") } else project
  let p2 := if truthy body.description then { p1 with description := body.description.getD "" } else p1
  let p3 :=
    match body.githubLink with
    | some githubLink => { p2 with githubLink := trim githubLink }
    | none => p2
  let p4 :=
    if truthyTech body.techStack then
      { p3 with techStack := (toArray (body.techStack.getD (.arr []))).map trim }
    else p3
  { p4 with updatedAt := env.now }

/-- Handler of `PUT /api/projects/:id`. -/
def updateProject (env : Env) (db : Db) (user : Claims) (id : String) (body : ProjectBody) :
    Db × Response :=
  match Project.findOne db.projects id user.id with
  | .error _ => (db, serverError)
  | .ok none => (db, { status := 404, body := errorBody "Project not found" })
  | .ok (some project) =>
    let updated := applyUpdate env body project
    match Project.save db updated with
    | .error _ => (db, serverError)
    | .ok db2 => (db2, { status := 200, body := updated.toJson })

/-- Handler of `DELETE /api/projects/:id`. -/
def deleteProject (db : Db) (user : Claims) (id : String) : Db × Response :=
  match Project.findOneAndDelete db id user.id with
  | .error _ => (db, serverError)
  | .ok (none, _) => (db, { status := 404, body := errorBody "Project not found" })
  | .ok (some _, db2) =>
    (db2, { status := 200, body := .obj [("message", .leaf (.str "Project deleted successfully"))] })

/-! ## Invariants of the collections -/

/-- MongoDB keeps `_id` unique within the `projects` collection. -/
def UniqueProjectIds (db : Db) : Prop :=
  (db.projects.map (fun p => p._id)).Nodup

instance (db : Db) : Decidable (UniqueProjectIds db) := by
  unfold UniqueProjectIds; infer_instance

/-- A user document as `userSchema` lets it be stored: the required paths are non-empty
and the email is a fixed point of its setters. -/
def User.Stored (lib : Libs) (u : User) : Prop :=
  u.name ≠ "" ∧ u.email ≠ "" ∧ u.password ≠ "" ∧ castEmail lib u.email = u.email

instance (lib : Libs) (u : User) : Decidable (User.Stored lib u) := by
  unfold User.Stored; infer_instance

/-- A project document as `projectSchema` lets it be stored: it passes `validate`. -/
def Project.Stored (p : Project) : Prop :=
  p.title ≠ "" ∧ p.description ≠ ""

instance (p : Project) : Decidable p.Stored := by
  unfold Project.Stored; infer_instance

/-- The invariant of the database: `_id` is unique among the projects and every document
is as its schema lets it be stored. -/
def Db.Valid (lib : Libs) (db : Db) : Prop :=
  UniqueProjectIds db ∧ (∀ u ∈ db.users, User.Stored lib u) ∧ (∀ p ∈ db.projects, p.Stored)

/-- The databases the server can reach from the empty one: the handlers that write are
register, create, update and delete (the others return the database as it was). -/
inductive Reachable (lib : Libs) : Db → Prop where
  | empty : Reachable lib ⟨[], []⟩
  | register (env : Env) (body : AuthBody) {db : Db} :
      Reachable lib db → Reachable lib (register lib env db body).1
  | create (env : Env) (user : Claims) (body : ProjectBody) {db : Db} :
      Reachable lib db → Reachable lib (createProject env db user body).1
  | update (env : Env) (user : Claims) (id : String) (body : ProjectBody) {db : Db} :
      Reachable lib db → Reachable lib (updateProject env db user id body).1
  | delete (user : Claims) (id : String) {db : Db} :
      Reachable lib db → Reachable lib (deleteProject db user id).1

/-! ## The routes -/

/-- A request to one of the six routes behind `authenticateToken`. -/
inductive ProtectedRequest where
  | me
  | list
  | get (id : String)
  | create (body : ProjectBody)
  | update (id : String) (body : ProjectBody)
  | delete (id : String)
deriving DecidableEq, Repr

/-- The handler of a protected route, given `req.user`. -/
def handle (env : Env) (db : Db) (user : Claims) : ProtectedRequest → Db × Response
  | .me => me db user
  | .list => listProjects db user
  | .get id => getProject db user id
  | .create body => createProject env db user body
  | .update id body => updateProject env db user id body
  | .delete id => deleteProject db user id

/-- A protected route as registered with `app.METHOD(path, authenticateToken, handler)`. -/
def protectedRoute (lib : Libs) (env : Env) (authHeader : Option String) (db : Db)
    (req : ProtectedRequest) : Db × Response :=
  withAuth lib env.now authHeader db (fun user => handle env db user req)

/-- A request to any of the eight routes of the server. -/
inductive Request where
  | register (body : AuthBody)
  | login (body : AuthBody)
  | secured (authHeader : Option String) (req : ProtectedRequest)
deriving DecidableEq, Repr

/-- The server: one request against the database. -/
def serve (lib : Libs) (env : Env) (db : Db) : Request → Db × Response
  | .register body => register lib env db body
  | .login body => login lib env db body
  | .secured authHeader req => protectedRoute lib env authHeader db req

/-- A sequence of requests served one after the other, each at its own time: the final
database and the responses in order. -/
def serveAll (lib : Libs) (db : Db) : List (Env × Request) → Db × List Response
  | [] => (db, [])
  | (env, req) :: rest =>
    ((serveAll lib (serve lib env db req).1 rest).1,
      (serve lib env db req).2 :: (serveAll lib (serve lib env db req).1 rest).2)

/-- The `Authorization` header the client sends: `Bearer` and the token (`App.js`). -/
def bearer (token : String) : String :=
  "Bearer " ++ token

/-- What the handlers need of `jsonwebtoken` for the token of a payload: it decodes,
under the secret, to the payload it was signed from, it is not empty and, being made of
base64url segments and dots, it has no space. -/
def TokenOk (lib : Libs) (c : Claims) : Prop :=
  lib.jwtDecode (lib.jwtEncode c JWT_SECRET) JWT_SECRET = some c ∧
  lib.jwtEncode c JWT_SECRET ≠ "" ∧ ' ' ∉ (lib.jwtEncode c JWT_SECRET).data

/-! ## The client form (`App.js`) -/

/-- JavaScript `s.split(sep)` for a one-character separator, on the characters. -/
def splitAll (sep : Char) : List Char → List (List Char)
  | [] => [[]]
  | c :: cs =>
    if c = sep then [] :: splitAll sep cs
    else
      match splitAll sep cs with
      | [] => [[c]]
      | seg :: segs => (c :: seg) :: segs

/-- JavaScript `s.split(sep)` for a one-character separator. -/
def jsSplit (sep : Char) (s : String) : List String :=
  (splitAll sep s.data).map String.mk

/-- JavaScript `ts.join(sep)`. -/
def jsJoin (sep : String) : List String → String
  | [] => ""
  | [t] => t
  | t :: u :: rest => t ++ sep ++ jsJoin sep (u :: rest)

/-- The techStack that `handleSubmit` sends for the text of the form field:
`formData.techStack.split(',').map(t => t.trim()).filter(Boolean)`. -/
def parseTechStack (s : String) : List String :=
  ((jsSplit ',' s).map trim).filter (fun t => decide (t ≠ ""))

/-- The text that `handleEdit` puts in the form field for the techStack of a project:
`project.techStack.join(', ')`. -/
def showTechStack (ts : List String) : String :=
  jsJoin ", " ts

/-- No leading and no trailing white space: the first and the last character, if any,
are not stripped by `trim`. -/
def NoOuterSpace (t : String) : Prop :=
  (∀ c ∈ t.data.head?, isJsWhiteSpace c = false) ∧
  (∀ c ∈ t.data.getLast?, isJsWhiteSpace c = false)

instance (t : String) : Decidable (NoOuterSpace t) := by
  unfold NoOuterSpace
  infer_instance

/-! ## Sample data -/

/-- Reads a run of `ch` up to the next other character, which it consumes. -/
def countLead (ch : Char) : List Char → Nat × List Char
  | [] => (0, [])
  | c :: cs => if c = ch then ((countLead ch cs).1 + 1, (countLead ch cs).2) else (0, cs)

/-- The lower-case mapping of the sample case conversion: that of Unicode on the
characters of Latin-1, where `A`-`Z` and `À`-`Þ` (but not the sign `×`) map 32 further. -/
def demoLowerChar (c : Char) : Char :=
  if (65 ≤ c.toNat ∧ c.toNat ≤ 90) ∨ (192 ≤ c.toNat ∧ c.toNat ≤ 222 ∧ c.toNat ≠ 215) then
    Char.ofNat (c.toNat + 32)
  else c

/-- A small implementation of the two libraries and of the case conversion, for
evaluating the handlers: the hash is the salt followed by the password, a token spells
its claims in unary followed by the key and the email, and the case conversion is that of
the Latin-1 letters. -/
def demoLibs : Libs where
  unicodeToLowerCase s := ⟨s.data.map demoLowerChar⟩
  bcryptHash pw salt := salt ++ pw
  bcryptCompare pw h := pw.data.isSuffixOf h.data
  jwtEncode c key :=
    ⟨List.replicate c.id 'i' ++ '.' :: (List.replicate c.iat 't' ++ '.' ::
      (List.replicate c.exp 'x' ++ '.' :: (List.replicate key.data.length 'k' ++ '.' ::
        (key.data ++ c.email.data))))⟩
  jwtDecode s key :=
    let a := countLead 'i' s.data
    let b := countLead 't' a.2
    let c := countLead 'x' b.2
    let d := countLead 'k' c.2
    if d.2.take d.1 = key.data then some ⟨a.1, ⟨d.2.drop d.1⟩, b.1, c.1⟩ else none

/-- User A as `req.user`. -/
def callerA : Claims := ⟨1, "a@x.com", 5, 604805⟩

/-- User B as `req.user`. -/
def callerB : Claims := ⟨2, "b@x.com", 5, 604805⟩

/-- A project of user A. -/
def projectA : Project :=
  ⟨10, 1, "T", "D", "https://github.com/a/t", ["Go"], 6000, 6000⟩

/-- A database with users A and B and one project of user A. -/
def demoDb : Db :=
  { users := [⟨1, "A", "a@x.com", "salt1secret1", 5000⟩, ⟨2, "B", "b@x.com", "salt2secret2", 5500⟩],
    projects := [projectA] }

/-- The route parameter that is the `_id` of `projectA`. -/
def idA : String := "00000000000000000000000a"

/-- A clock, an identifier and a salt for one request. -/
def demoEnv : Env := ⟨7000, 11, "salt3"⟩

/-- A project body with no field. -/
def emptyBody : ProjectBody := ⟨none, none, none, none, none⟩

/-- A user whose stored email has a letter outside ASCII. -/
def userE : User := ⟨3, "E", "école@x.com", "salt4secret4", 5600⟩

/-- A database with that user only. -/
def demoDbE : Db := { users := [userE], projects := [] }

/-- The clock, identifier and salt of the five requests of the end-to-end scenario. -/
def scenarioEnvs : Env × Env × Env × Env × Env :=
  (⟨5000, 1, "salt"⟩, ⟨7000, 11, ""⟩, ⟨8000, 12, ""⟩, ⟨9000, 13, ""⟩, ⟨10000, 14, ""⟩)

/-- The route parameter that is the `_id` generated for the project of the scenario. -/
def idScenario : String := "00000000000000000000000b"

/-! ## Lemmas on the queries -/

theorem find_none_of_other_owner (db : Db) (p : Project) (owner : ObjectId)
    (hu : UniqueProjectIds db) (hp : p ∈ db.projects) (ho : owner ≠ p.userId) :
    db.projects.find? (fun q => decide (q._id = p._id) && decide (q.userId = owner)) = none := by
  rw [List.find?_eq_none]
  intro q hq
  simp only [Bool.and_eq_true, decide_eq_true_eq, not_and]
  intro hid hown
  have hqp : q = p := List.inj_on_of_nodup_map hu hq hp hid
  exact ho (by rw [← hown, hqp])

theorem findOne_other_owner (db : Db) (p : Project) (owner : ObjectId) (id : String)
    (hu : UniqueProjectIds db) (hp : p ∈ db.projects) (hid : castObjectId id = some p._id)
    (ho : owner ≠ p.userId) :
    Project.findOne db.projects id owner = .ok none := by
  simp only [Project.findOne, hid]
  rw [find_none_of_other_owner db p owner hu hp ho]

theorem findOne_absent (db : Db) (owner oid : ObjectId) (id : String)
    (hid : castObjectId id = some oid) (hno : ∀ q ∈ db.projects, q._id ≠ oid) :
    Project.findOne db.projects id owner = .ok none := by
  simp only [Project.findOne, hid]
  congr 1
  rw [List.find?_eq_none]
  intro q hq
  simp [hno q hq]

/-! ## Ownership isolation -/

/-- C1. Ownership isolation: in a store where `_id` is unique, for a project `p` of user A
and an authenticated caller B other than A, the get, update and delete handlers called
with the id of `p` all answer 404 `Project not found` and return the database as it was. -/
theorem ownership_isolation (env : Env) (db : Db) (p : Project) (caller : Claims) (id : String)
    (body : ProjectBody) (hu : UniqueProjectIds db) (hp : p ∈ db.projects)
    (hid : castObjectId id = some p._id) (hB : caller.id ≠ p.userId) :
    getProject db caller id = (db, ⟨404, errorBody "Project not found"⟩) ∧
    updateProject env db caller id body = (db, ⟨404, errorBody "Project not found"⟩) ∧
    deleteProject db caller id = (db, ⟨404, errorBody "Project not found"⟩) := by
  have h := findOne_other_owner db p caller.id id hu hp hid hB
  refine ⟨?_, ?_, ?_⟩
  · simp [getProject, h]
  · simp [updateProject, h]
  · simp [deleteProject, Project.findOneAndDelete, h]

/-- Witness of C1: user B on the project of user A. -/
theorem ownership_isolation_witness :
    UniqueProjectIds demoDb ∧ projectA ∈ demoDb.projects ∧
    castObjectId idA = some projectA._id ∧ callerB.id ≠ projectA.userId ∧
    (getProject demoDb callerB idA = (demoDb, ⟨404, errorBody "Project not found"⟩) ∧
     updateProject demoEnv demoDb callerB idA emptyBody
       = (demoDb, ⟨404, errorBody "Project not found"⟩) ∧
     deleteProject demoDb callerB idA = (demoDb, ⟨404, errorBody "Project not found"⟩)) :=
  ⟨by decide, by decide, by decide, by decide,
    ownership_isolation demoEnv demoDb projectA callerB idA emptyBody (by decide) (by decide)
      (by decide) (by decide)⟩

/-! ## Login failures -/

/-- C2. Login does not tell an unknown email from a wrong password: for two login
requests with non-empty email and password, one whose email matches no user and one whose
email matches a user whose hash the password does not match, both answers are the same
400 `Invalid credentials`, neither body carries a token, and neither database changes. -/
theorem login_failures_indistinguishable (lib : Libs) (env1 env2 : Env) (db1 db2 : Db)
    (b1 b2 : AuthBody) (e1 pw1 e2 pw2 : String) (u : User)
    (h1e : b1.email = some e1) (h1 : e1 ≠ "") (h1p : b1.password = some pw1) (h1n : pw1 ≠ "")
    (h2e : b2.email = some e2) (h2 : e2 ≠ "") (h2p : b2.password = some pw2) (h2n : pw2 ≠ "")
    (hnone : User.findOne lib db1.users e1 = none)
    (hsome : User.findOne lib db2.users e2 = some u)
    (hbad : lib.bcryptCompare pw2 u.password = false) :
    (login lib env1 db1 b1).2 = (login lib env2 db2 b2).2 ∧
    (login lib env1 db1 b1).2 = ⟨400, errorBody "Invalid credentials"⟩ ∧
    "token" ∉ (login lib env1 db1 b1).2.body.keys ∧
    "token" ∉ (login lib env2 db2 b2).2.body.keys ∧
    (login lib env1 db1 b1).1 = db1 ∧ (login lib env2 db2 b2).1 = db2 := by
  have r1 : login lib env1 db1 b1 = (db1, ⟨400, errorBody "Invalid credentials"⟩) := by
    simp [login, truthy, h1e, h1p, h1, h1n, hnone]
  have r2 : login lib env2 db2 b2 = (db2, ⟨400, errorBody "Invalid credentials"⟩) := by
    simp [login, truthy, h2e, h2p, h2, h2n, hsome, hbad]
  rw [r1, r2]
  simp [errorBody, Json.keys]

/-- Witness of C2: an unregistered email against the password of user B tried on the
account of user A. -/
theorem login_failures_indistinguishable_witness :
    User.findOne demoLibs demoDb.users "nobody@x.com" = none ∧
    User.findOne demoLibs demoDb.users "A@x.com"
      = some ⟨1, "A", "a@x.com", "salt1secret1", 5000⟩ ∧
    demoLibs.bcryptCompare "secret2" "salt1secret1" = false ∧
    ((login demoLibs demoEnv demoDb ⟨none, some "nobody@x.com", some "secret1"⟩).2
        = (login demoLibs demoEnv demoDb ⟨none, some "A@x.com", some "secret2"⟩).2 ∧
     (login demoLibs demoEnv demoDb ⟨none, some "nobody@x.com", some "secret1"⟩).2
        = ⟨400, errorBody "Invalid credentials"⟩ ∧
     "token" ∉ (login demoLibs demoEnv demoDb ⟨none, some "nobody@x.com", some "secret1"⟩).2.body.keys ∧
     "token" ∉ (login demoLibs demoEnv demoDb ⟨none, some "A@x.com", some "secret2"⟩).2.body.keys ∧
     (login demoLibs demoEnv demoDb ⟨none, some "nobody@x.com", some "secret1"⟩).1 = demoDb ∧
     (login demoLibs demoEnv demoDb ⟨none, some "A@x.com", some "secret2"⟩).1 = demoDb) :=
  ⟨by decide, by decide, by decide,
    login_failures_indistinguishable demoLibs demoEnv demoEnv demoDb demoDb
      ⟨none, some "nobody@x.com", some "secret1"⟩ ⟨none, some "A@x.com", some "secret2"⟩
      "nobody@x.com" "secret1" "A@x.com" "secret2" ⟨1, "A", "a@x.com", "salt1secret1", 5000⟩
      rfl (by decide) rfl (by decide) rfl (by decide) rfl (by decide)
      (by decide) (by decide) (by decide)⟩

/-! ## No existence leak -/

/-- C3, as stated, fails: with `abc` as the id that identifies no project, get answers
500 `Server error` (the cast of the id throws), while the id of a project of another user
gets 404. -/
theorem no_existence_leak_counterexample :
    UniqueProjectIds demoDb ∧ projectA ∈ demoDb.projects ∧
    castObjectId idA = some projectA._id ∧ callerB.id ≠ projectA.userId ∧
    (∀ q ∈ demoDb.projects, castObjectId "abc" ≠ some q._id) ∧
    (getProject demoDb callerB idA).2 = ⟨404, errorBody "Project not found"⟩ ∧
    (getProject demoDb callerB "abc").2 = ⟨500, errorBody "Server error"⟩ ∧
    (getProject demoDb callerB idA).2 ≠ (getProject demoDb callerB "abc").2 := by
  decide

/-- C3, amended. No existence leak: in a store where `_id` is unique, for each of the get,
update and delete handlers, a caller, an id `id1` of a project owned by another user and a
well-formed id `id2` (24 hexadecimal digits) of no project at all get the same answer,
404 `Project not found`, and the database is unchanged. -/
theorem no_existence_leak (env : Env) (db : Db) (p : Project) (caller : Claims)
    (id1 id2 : String) (oid2 : ObjectId) (body : ProjectBody)
    (hu : UniqueProjectIds db) (hp : p ∈ db.projects)
    (h1 : castObjectId id1 = some p._id) (hB : caller.id ≠ p.userId)
    (h2 : castObjectId id2 = some oid2) (hno : ∀ q ∈ db.projects, q._id ≠ oid2) :
    getProject db caller id1 = getProject db caller id2 ∧
    updateProject env db caller id1 body = updateProject env db caller id2 body ∧
    deleteProject db caller id1 = deleteProject db caller id2 ∧
    getProject db caller id2 = (db, ⟨404, errorBody "Project not found"⟩) ∧
    updateProject env db caller id2 body = (db, ⟨404, errorBody "Project not found"⟩) ∧
    deleteProject db caller id2 = (db, ⟨404, errorBody "Project not found"⟩) := by
  have ha := findOne_other_owner db p caller.id id1 hu hp h1 hB
  have hb := findOne_absent db caller.id oid2 id2 h2 hno
  simp [getProject, updateProject, deleteProject, Project.findOneAndDelete, ha, hb]

/-- Witness of C3 amended: user B asks for the project of user A and for an id that is
in no collection. -/
theorem no_existence_leak_witness :
    UniqueProjectIds demoDb ∧ projectA ∈ demoDb.projects ∧
    castObjectId idA = some projectA._id ∧ callerB.id ≠ projectA.userId ∧
    castObjectId "0000000000000000000000ff" = some 255 ∧
    (∀ q ∈ demoDb.projects, q._id ≠ 255) ∧
    (getProject demoDb callerB idA = getProject demoDb callerB "0000000000000000000000ff" ∧
     updateProject demoEnv demoDb callerB idA emptyBody
       = updateProject demoEnv demoDb callerB "0000000000000000000000ff" emptyBody ∧
     deleteProject demoDb callerB idA = deleteProject demoDb callerB "0000000000000000000000ff" ∧
     getProject demoDb callerB "0000000000000000000000ff"
       = (demoDb, ⟨404, errorBody "Project not found"⟩) ∧
     updateProject demoEnv demoDb callerB "0000000000000000000000ff" emptyBody
       = (demoDb, ⟨404, errorBody "Project not found"⟩) ∧
     deleteProject demoDb callerB "0000000000000000000000ff"
       = (demoDb, ⟨404, errorBody "Project not found"⟩)) :=
  ⟨by decide, by decide, by decide, by decide, by decide, by decide,
    no_existence_leak demoEnv demoDb projectA callerB idA "0000000000000000000000ff" 255
      emptyBody (by decide) (by decide) (by decide) (by decide) (by decide) (by decide)⟩

/-! ## Lemmas on strings -/

theorem toNat_ofNat_of_lt (n : Nat) (h : n < 55296) : (Char.ofNat n).toNat = n := by
  have hv : n.isValidChar := Or.inl h
  simp only [Char.ofNat, hv, dite_true]
  rfl

theorem dropWhile_rdropWhile_dropWhile (p : Char → Bool) (l : List Char) :
    ((l.dropWhile p).rdropWhile p).dropWhile p = (l.dropWhile p).rdropWhile p := by
  have hm : (l.dropWhile p).dropWhile p = l.dropWhile p := List.dropWhile_idempotent p l
  generalize l.dropWhile p = m at hm
  obtain ⟨t, ht⟩ := List.rdropWhile_prefix p (l := m)
  cases hr : m.rdropWhile p with
  | nil => rfl
  | cons a r =>
    rw [hr] at ht
    have hpa : p a = false := by
      rw [← ht] at hm
      by_contra hc
      simp only [Bool.not_eq_false] at hc
      have hlen := (List.dropWhile_sublist p (l := r ++ t)).length_le
      simp only [List.cons_append, List.dropWhile_cons, hc, if_true] at hm
      have := congrArg List.length hm
      simp only [List.length_cons] at this
      omega
    simp [List.dropWhile_cons, hpa]

theorem trim_trim (s : String) : trim (trim s) = trim s := by
  simp only [trim]
  rw [dropWhile_rdropWhile_dropWhile, List.rdropWhile_idempotent]

/-- The setters of the email path are idempotent, for a case conversion that leaves white
space alone and is idempotent: what they return is a fixed point. -/
theorem castEmail_castEmail (lib : Libs) (hk : CaseKeepsSpace lib) (hi : CaseIdempotent lib)
    (s : String) : castEmail lib (castEmail lib s) = castEmail lib s := by
  simp only [castEmail]
  rw [hk (toLowerCase lib (trim s)), hi, ← hk, trim_trim]

theorem toLowerCase_empty (lib : Libs) : toLowerCase lib "" = "" := by
  have h : isAscii "" = true := by decide
  have h2 : asciiToLowerCase "" = "" := by decide
  rw [toLowerCase, if_pos h, h2]

/-- On a string of ASCII characters the case conversion does not depend on the runtime. -/
theorem toLowerCase_ascii (lib : Libs) (s : String) (h : isAscii s = true) :
    toLowerCase lib s = asciiToLowerCase s := by
  rw [toLowerCase, if_pos h]

theorem jsLength_empty : jsLength "" = 0 := by
  decide

theorem trim_empty : trim "" = "" := by
  decide

/-! ## The sample case conversion -/

theorem demoLowerChar_space (c : Char) :
    isJsWhiteSpace (demoLowerChar c) = isJsWhiteSpace c := by
  unfold demoLowerChar
  split
  · next h =>
    have hv : (Char.ofNat (c.toNat + 32)).toNat = c.toNat + 32 :=
      toNat_ofNat_of_lt _ (by omega)
    have h1 : isJsWhiteSpace c = false := by
      simp only [isJsWhiteSpace, List.contains_eq_any_beq, List.any_cons, List.any_nil,
        Bool.or_false, Bool.or_eq_false_iff, beq_eq_false_iff_ne, ne_eq]
      omega
    have h2 : isJsWhiteSpace (Char.ofNat (c.toNat + 32)) = false := by
      simp only [isJsWhiteSpace, hv, List.contains_eq_any_beq, List.any_cons, List.any_nil,
        Bool.or_false, Bool.or_eq_false_iff, beq_eq_false_iff_ne, ne_eq]
      omega
    rw [h1, h2]
  · rfl

theorem demoLowerChar_idem (c : Char) : demoLowerChar (demoLowerChar c) = demoLowerChar c := by
  by_cases h : (65 ≤ c.toNat ∧ c.toNat ≤ 90) ∨ (192 ≤ c.toNat ∧ c.toNat ≤ 222 ∧ c.toNat ≠ 215)
  · have hc : demoLowerChar c = Char.ofNat (c.toNat + 32) := by
      simp only [demoLowerChar, h, if_true]
    have hv : (Char.ofNat (c.toNat + 32)).toNat = c.toNat + 32 :=
      toNat_ofNat_of_lt _ (by omega)
    rw [hc]
    have hn : ¬ ((65 ≤ (Char.ofNat (c.toNat + 32)).toNat ∧
          (Char.ofNat (c.toNat + 32)).toNat ≤ 90) ∨
        (192 ≤ (Char.ofNat (c.toNat + 32)).toNat ∧ (Char.ofNat (c.toNat + 32)).toNat ≤ 222 ∧
          (Char.ofNat (c.toNat + 32)).toNat ≠ 215)) := by
      rw [hv]; omega
    simp only [demoLowerChar, hn, if_false]
  · have hc : demoLowerChar c = c := by
      simp only [demoLowerChar, h, if_false]
    rw [hc, hc]

/-- On the ASCII characters the sample mapping is the lower-case mapping of `A`-`Z`. -/
theorem demoLowerChar_ascii (c : Char) (h : c.toNat < 128) : c.toLower = demoLowerChar c := by
  unfold Char.toLower demoLowerChar
  simp only []
  by_cases hu : c.toNat ≥ 65 ∧ c.toNat ≤ 90
  · rw [if_pos hu, if_pos (Or.inl ⟨hu.1, hu.2⟩)]
  · rw [if_neg hu, if_neg (by omega)]

/-- The sample case conversion maps every character by `demoLowerChar`. -/
theorem demo_toLowerCase (s : String) :
    toLowerCase demoLibs s = ⟨s.data.map demoLowerChar⟩ := by
  unfold toLowerCase
  by_cases h : isAscii s = true
  · rw [if_pos h]
    simp only [asciiToLowerCase]
    congr 1
    apply List.map_congr_left
    intro c hc
    apply demoLowerChar_ascii
    simp only [isAscii, List.all_eq_true, decide_eq_true_eq] at h
    exact h c hc
  · rw [if_neg h]
    rfl

/-- The sample case conversion leaves white space alone. -/
theorem demoLibs_caseKeepsSpace : CaseKeepsSpace demoLibs := by
  intro s
  simp only [demo_toLowerCase, trim, List.rdropWhile, List.dropWhile_map, ← List.map_reverse]
  have : (isJsWhiteSpace ∘ demoLowerChar) = isJsWhiteSpace := by
    funext c; exact demoLowerChar_space c
  rw [this]

/-- The sample case conversion is idempotent. -/
theorem demoLibs_caseIdempotent : CaseIdempotent demoLibs := by
  intro s
  simp only [demo_toLowerCase, List.map_map]
  congr 1
  apply List.map_congr_left
  intro c _
  exact demoLowerChar_idem c

/-! ## Duplicate registration -/

/-- C4. Duplicate registration is rejected case-insensitively and atomically: for every
case conversion of the runtime that leaves white space alone, when the store holds a user
`u` (a document as the schema stores it, its email a fixed point of the setters) and the
request has a name, a password of length at least 6 and an email equal to the email of `u`
up to letter case (the two have the same `toLowerCase`), register answers 400
`User already exists` and returns the database as it was. -/
theorem duplicate_registration_rejected (lib : Libs) (env : Env) (db : Db) (u : User)
    (body : AuthBody) (n e pw : String) (hk : CaseKeepsSpace lib) (hu : u ∈ db.users)
    (hs : User.Stored lib u) (hn : body.name = some n) (hn0 : n ≠ "")
    (he : body.email = some e) (hp : body.password = some pw) (hpw : 6 ≤ jsLength pw)
    (hcase : toLowerCase lib e = toLowerCase lib u.email) :
    register lib env db body = (db, ⟨400, errorBody "User already exists"⟩) := by
  obtain ⟨_, hemail, _, hfix⟩ := hs
  have hcast : castEmail lib e = u.email := by
    rw [castEmail, hk, hcase, ← hk]
    exact hfix
  have he0 : e ≠ "" := by
    intro h0
    rw [h0] at hcast
    have h1 : castEmail lib "" = "" := by
      rw [castEmail, trim_empty, toLowerCase_empty]
    exact hemail (by rw [← hcast, h1])
  have hp0 : pw ≠ "" := by
    intro h0
    rw [h0, jsLength_empty] at hpw
    omega
  have hfound : (User.findOne lib db.users e).isSome = true := by
    simp only [User.findOne, List.find?_isSome]
    exact ⟨u, hu, by simp [hcast]⟩
  obtain ⟨v, hv⟩ := Option.isSome_iff_exists.mp hfound
  simp [register, truthy, hn, he, hp, hn0, he0, hp0, hv]
  omega

/-- Witness of C4: `École@x.com` when `école@x.com` is registered, with the sample case
conversion. -/
theorem duplicate_registration_rejected_witness :
    CaseKeepsSpace demoLibs ∧ userE ∈ demoDbE.users ∧ User.Stored demoLibs userE ∧
    6 ≤ jsLength "secret9" ∧
    toLowerCase demoLibs "École@x.com" = toLowerCase demoLibs userE.email ∧
    register demoLibs demoEnv demoDbE ⟨some "Z", some "École@x.com", some "secret9"⟩
      = (demoDbE, ⟨400, errorBody "User already exists"⟩) :=
  ⟨demoLibs_caseKeepsSpace, by decide, by decide, by decide, by decide,
    duplicate_registration_rejected demoLibs demoEnv demoDbE userE
      ⟨some "Z", some "École@x.com", some "secret9"⟩ "Z" "École@x.com" "secret9"
      demoLibs_caseKeepsSpace (by decide) (by decide) rfl (by decide) rfl rfl (by decide)
      (by decide)⟩

/-! ## Registration -/

/-- What `user.save()` did when it succeeded: the document passed the validators, its
`_id` and email were new, and it was appended. -/
theorem User.save_ok (db db2 : Db) (u : User) (h : User.save db u = .ok db2) :
    u.name ≠ "" ∧ u.email ≠ "" ∧ u.password ≠ "" ∧
    (∀ v ∈ db.users, v._id ≠ u._id) ∧ (∀ v ∈ db.users, v.email ≠ u.email) ∧
    db2 = { db with users := db.users ++ [u] } := by
  unfold User.save at h
  split_ifs at h with h1 h2 h3
  simp only [not_or] at h1
  simp only [List.any_eq_true, decide_eq_true_eq, not_exists, not_and] at h2 h3
  injection h with h
  exact ⟨h1.1, h1.2.1, h1.2.2, h2, h3, h.symm⟩

/-- Every answer of register other than 201 leaves the database as it was. -/
theorem register_db_unchanged (lib : Libs) (env : Env) (db : Db) (body : AuthBody)
    (h : (register lib env db body).2.status ≠ 201) : (register lib env db body).1 = db := by
  unfold register at h ⊢
  by_cases c1 : ¬truthy body.name = true ∨ ¬truthy body.email = true ∨ ¬truthy body.password = true
  · rw [if_pos c1]
  · rw [if_neg c1] at h ⊢
    simp only [] at h ⊢
    by_cases c2 : jsLength (body.password.getD "") < 6
    · rw [if_pos c2]
    · rw [if_neg c2] at h ⊢
      cases hf : User.findOne lib db.users (body.email.getD "") with
      | some v => rfl
      | none =>
        rw [hf] at h
        simp only [] at h ⊢
        cases hsave : User.save db (User.new lib env (body.name.getD "") (body.email.getD "")
            (lib.bcryptHash (body.password.getD "") env.salt)) with
        | error e => rfl
        | ok db2 =>
          rw [hsave] at h
          exact absurd rfl h

/-- What a successful register did: the new document is `User.new` of the request, it
passed the validators, its `_id` and email were new, it was appended to the collection,
and the body is the token signed for it together with its public fields. -/
theorem register_success (lib : Libs) (env : Env) (db : Db) (body : AuthBody)
    (h : (register lib env db body).2.status = 201) :
    ∃ u : User,
      u = User.new lib env (body.name.getD "") (body.email.getD "")
        (lib.bcryptHash (body.password.getD "") env.salt) ∧
      (u.name ≠ "" ∧ u.email ≠ "" ∧ u.password ≠ "") ∧
      (∀ v ∈ db.users, v._id ≠ u._id) ∧ (∀ v ∈ db.users, v.email ≠ u.email) ∧
      register lib env db body =
        ({ db with users := db.users ++ [u] },
          ⟨201, authBody (jwtSign lib env.now u._id u.email) u⟩) := by
  unfold register at h ⊢
  by_cases c1 : ¬truthy body.name = true ∨ ¬truthy body.email = true ∨ ¬truthy body.password = true
  · rw [if_pos c1] at h
    simp at h
  · rw [if_neg c1] at h ⊢
    simp only [] at h ⊢
    by_cases c2 : jsLength (body.password.getD "") < 6
    · rw [if_pos c2] at h
      simp at h
    · rw [if_neg c2] at h ⊢
      cases hf : User.findOne lib db.users (body.email.getD "") with
      | some v =>
        rw [hf] at h
        simp at h
      | none =>
        rw [hf] at h
        simp only [] at h ⊢
        cases hsave : User.save db (User.new lib env (body.name.getD "") (body.email.getD "")
            (lib.bcryptHash (body.password.getD "") env.salt)) with
        | error e =>
          rw [hsave] at h
          simp [serverError] at h
        | ok db2 =>
          obtain ⟨s1, s2, s3, s4, s5, s6⟩ := User.save_ok _ _ _ hsave
          refine ⟨_, rfl, ⟨s1, s2, s3⟩, s4, s5, ?_⟩
          rw [s6]

/-- Register keeps every stored user document as the schema stores it, for a case
conversion that leaves white space alone and is idempotent. -/
theorem register_preserves_stored (lib : Libs) (hk : CaseKeepsSpace lib)
    (hi : CaseIdempotent lib) (env : Env) (db : Db) (body : AuthBody)
    (hdb : ∀ u ∈ db.users, User.Stored lib u) :
    ∀ u ∈ (register lib env db body).1.users, User.Stored lib u := by
  by_cases h : (register lib env db body).2.status = 201
  · obtain ⟨u, hnew, hs, _, _, hr⟩ := register_success lib env db body h
    rw [hr]
    intro v hv
    simp only [List.mem_append, List.mem_singleton] at hv
    rcases hv with hv | hv
    · exact hdb v hv
    · rw [hv]
      refine ⟨hs.1, hs.2.1, hs.2.2, ?_⟩
      rw [hnew]
      exact castEmail_castEmail lib hk hi _
  · rw [register_db_unchanged lib env db body h]
    exact hdb

theorem countLead_replicate (ch sep : Char) (n : Nat) (rest : List Char) (h : sep ≠ ch) :
    countLead ch (List.replicate n ch ++ sep :: rest) = (n, rest) := by
  induction n with
  | zero => simp [countLead, h]
  | succ k ih => simp [List.replicate_succ, countLead, ih]

/-- The round trip of the sample token library: a token decodes, under the key it was
signed with, to the claims it was built from. -/
theorem demoLibs_round_trip (c : Claims) (key : String) :
    demoLibs.jwtDecode (demoLibs.jwtEncode c key) key = some c := by
  simp only [demoLibs]
  rw [countLead_replicate 'i' '.' _ _ (by decide), countLead_replicate 't' '.' _ _ (by decide),
    countLead_replicate 'x' '.' _ _ (by decide), countLead_replicate 'k' '.' _ _ (by decide)]
  simp

/-- C5. Registration token round trip: when the token library decodes what it signed,
every registration that answers 201 has appended one user document to the collection, the
body carries the `id`, `name` and `email` of that document as the user object, and the
returned token verifies under the secret of the server, at any time before its expiry
seven days later, to a payload with the `_id` of that document and its stored email. -/
theorem register_token_round_trip (lib : Libs) (env : Env) (db : Db) (body : AuthBody)
    (hlib : ∀ c : Claims, lib.jwtDecode (lib.jwtEncode c JWT_SECRET) JWT_SECRET = some c)
    (hok : (register lib env db body).2.status = 201) :
    ∃ (u : User) (token : String),
      (register lib env db body).1.users = db.users ++ [u] ∧
      (register lib env db body).2.body =
        .obj [("token", .leaf (.str token)),
          ("user", .sub [("id", .oid u._id), ("name", .str u.name), ("email", .str u.email)])] ∧
      ∀ t : Millis, t / 1000 < env.now / 1000 + SEVEN_DAYS →
        ∃ c : Claims, jwtVerify lib t token = some c ∧ c.id = u._id ∧ c.email = u.email := by
  obtain ⟨u, _, _, _, _, hr⟩ := register_success lib env db body hok
  refine ⟨u, jwtSign lib env.now u._id u.email, ?_, ?_, ?_⟩
  · rw [hr]
  · rw [hr]; rfl
  · intro t ht
    refine ⟨⟨u._id, u.email, env.now / 1000, env.now / 1000 + SEVEN_DAYS⟩, ?_, rfl, rfl⟩
    simp only [jwtVerify, jwtSign, hlib]
    rw [if_neg (Nat.not_le.mpr ht)]

/-- Witness of C5: user C registers in the sample database and the token is verified
at the time of the registration. -/
theorem register_token_round_trip_witness :
    (∀ c : Claims, demoLibs.jwtDecode (demoLibs.jwtEncode c JWT_SECRET) JWT_SECRET = some c) ∧
    (register demoLibs demoEnv demoDb ⟨some "C", some " C@x.com", some "secret3"⟩).2.status = 201 ∧
    demoEnv.now / 1000 < demoEnv.now / 1000 + SEVEN_DAYS ∧
    ∃ (u : User) (token : String),
      (register demoLibs demoEnv demoDb ⟨some "C", some " C@x.com", some "secret3"⟩).1.users
        = demoDb.users ++ [u] ∧
      (register demoLibs demoEnv demoDb ⟨some "C", some " C@x.com", some "secret3"⟩).2.body =
        .obj [("token", .leaf (.str token)),
          ("user", .sub [("id", .oid u._id), ("name", .str u.name), ("email", .str u.email)])] ∧
      ∃ c : Claims, jwtVerify demoLibs demoEnv.now token = some c ∧ c.id = u._id ∧
        c.email = u.email :=
  ⟨fun c => demoLibs_round_trip c JWT_SECRET, by decide, by decide,
    match register_token_round_trip demoLibs demoEnv demoDb
      ⟨some "C", some " C@x.com", some "secret3"⟩
      (fun c => demoLibs_round_trip c JWT_SECRET) (by decide) with
    | ⟨u, token, h1, h2, h3⟩ => ⟨u, token, h1, h2, h3 demoEnv.now (by decide)⟩⟩

/-! ## Projects: lemmas on the queries and the write -/

theorem findOne_owner (db : Db) (p : Project) (owner : ObjectId) (id : String)
    (hu : UniqueProjectIds db) (hp : p ∈ db.projects) (hid : castObjectId id = some p._id)
    (ho : p.userId = owner) :
    Project.findOne db.projects id owner = .ok (some p) := by
  simp only [Project.findOne, hid]
  congr 1
  cases hf : db.projects.find? (fun q => decide (q._id = p._id) && decide (q.userId = owner)) with
  | none =>
    rw [List.find?_eq_none] at hf
    have := hf p hp
    simp [ho] at this
  | some q =>
    have hq := List.mem_of_find?_eq_some hf
    have hpq := List.find?_some hf
    simp only [Bool.and_eq_true, decide_eq_true_eq] at hpq
    rw [List.inj_on_of_nodup_map hu hq hp hpq.1]

theorem replaceById_length (p : Project) (l : List Project) :
    (replaceById p l).length = l.length := by
  induction l with
  | nil => rfl
  | cons q qs ih =>
    simp only [replaceById]
    split <;> simp [ih]

theorem replaceById_frame (p : Project) (l : List Project) (i : Nat) (q : Project)
    (hq : l[i]? = some q) (hne : q._id ≠ p._id) : (replaceById p l)[i]? = some q := by
  induction l generalizing i with
  | nil => simp at hq
  | cons r rs ih =>
    simp only [replaceById]
    cases i with
    | zero =>
      simp only [List.getElem?_cons_zero, Option.some.injEq] at hq
      rw [hq, if_neg hne]
      simp
    | succ j =>
      simp only [List.getElem?_cons_succ] at hq
      split
      · simpa using hq
      · simpa using ih j hq

theorem replaceById_find (p old : Project) (l : List Project) (hold : old ∈ l)
    (hid : old._id = p._id) :
    (replaceById p l).find? (fun q => decide (q._id = p._id) && decide (q.userId = p.userId))
      = some p := by
  induction l with
  | nil => simp at hold
  | cons r rs ih =>
    simp only [replaceById]
    by_cases hr : r._id = p._id
    · rw [if_pos hr]
      simp [List.find?_cons]
    · rw [if_neg hr]
      have hmem : old ∈ rs := by
        rcases List.mem_cons.mp hold with h | h
        · exact absurd (h ▸ hid) hr
        · exact h
      simp [List.find?_cons, hr, ih hmem]

/-- The assignments of the update keep `_id`, `userId` and `createdAt`. -/
theorem applyUpdate_fixed (env : Env) (body : ProjectBody) (p : Project) :
    (applyUpdate env body p)._id = p._id ∧ (applyUpdate env body p).userId = p.userId ∧
    (applyUpdate env body p).createdAt = p.createdAt ∧
    (applyUpdate env body p).updatedAt = env.now := by
  refine ⟨?_, ?_, ?_, rfl⟩ <;> unfold applyUpdate <;> simp only [] <;> (repeat' split) <;> rfl

/-- What the update handler does on a project of the caller: it answers 200 with the
document after the assignments and writes it, or the validators reject that document and
it answers 500 without writing. -/
theorem updateProject_owner (env : Env) (db : Db) (caller : Claims) (id : String) (p : Project)
    (body : ProjectBody) (hu : UniqueProjectIds db) (hp : p ∈ db.projects)
    (hid : castObjectId id = some p._id) (ho : p.userId = caller.id) :
    ((applyUpdate env body p).validate = true ∧
      updateProject env db caller id body =
        ({ db with projects := replaceById (applyUpdate env body p) db.projects },
          ⟨200, (applyUpdate env body p).toJson⟩)) ∨
    ((applyUpdate env body p).validate = false ∧
      updateProject env db caller id body = (db, serverError)) := by
  have hf := findOne_owner db p caller.id id hu hp hid ho
  cases hv : (applyUpdate env body p).validate with
  | true => left; simp [updateProject, hf, Project.save, hv]
  | false => right; simp [updateProject, hf, Project.save, hv]

/-- Reading back after a write: the caller finds the written document under the id. -/
theorem findOne_after_write (db : Db) (caller : Claims) (id : String) (p p2 : Project)
    (hp : p ∈ db.projects) (hid : castObjectId id = some p._id) (h2 : p2._id = p._id)
    (ho : p2.userId = caller.id) :
    Project.findOne (replaceById p2 db.projects) id caller.id = .ok (some p2) := by
  simp only [Project.findOne, hid]
  congr 1
  have := replaceById_find p2 p db.projects hp h2.symm
  rw [h2, ho] at this
  exact this

/-! ## Creating a project -/

/-- What `project.save()` of a new document did when it succeeded. -/
theorem Project.insert_ok (db db2 : Db) (p : Project) (h : Project.insert db p = .ok db2) :
    p.validate = true ∧ (∀ q ∈ db.projects, q._id ≠ p._id) ∧
    db2 = { db with projects := db.projects ++ [p] } := by
  unfold Project.insert at h
  by_cases h1 : ¬ p.validate = true
  · rw [if_pos h1] at h
    cases h
  · rw [if_neg h1] at h
    by_cases h2 : db.projects.any (fun q => decide (q._id = p._id)) = true
    · rw [if_pos h2] at h
      cases h
    · rw [if_neg h2] at h
      injection h with h
      simp only [List.any_eq_true, decide_eq_true_eq, not_exists, not_and] at h2
      exact ⟨not_not.mp h1, h2, h.symm⟩

/-- What a successful create did: the new document is `Project.new` of the request and
it was appended to the collection. -/
theorem createProject_success (env : Env) (db : Db) (caller : Claims) (body : ProjectBody)
    (h : (createProject env db caller body).2.status = 201) :
    createProject env db caller body =
      ({ db with projects := db.projects ++
          [Project.new env caller.id (body.title.getD "") (body.description.getD "")
            (orEmpty body.githubLink) (toArray (body.techStack.getD (.arr [])))] },
        ⟨201, (Project.new env caller.id (body.title.getD "") (body.description.getD "")
            (orEmpty body.githubLink) (toArray (body.techStack.getD (.arr [])))).toJson⟩) := by
  unfold createProject at h ⊢
  by_cases c1 : ¬truthy body.title = true ∨ ¬truthy body.description = true ∨
      ¬truthyTech body.techStack = true
  · rw [if_pos c1] at h
    simp at h
  · rw [if_neg c1] at h ⊢
    simp only [] at h ⊢
    cases hins : Project.insert db (Project.new env caller.id (body.title.getD "")
        (body.description.getD "") (orEmpty body.githubLink)
        (toArray (body.techStack.getD (.arr [])))) with
    | error e =>
      rw [hins] at h
      simp [serverError] at h
    | ok db2 =>
      obtain ⟨_, _, h3⟩ := Project.insert_ok _ _ _ hins
      rw [h3]

/-- C6, as stated, fails: a bare string ` Go` with a leading blank is stored as the
one-element sequence `Go`, not as the sequence of the string supplied; the same holds
when it is supplied as a one-element array. -/
theorem techStack_coercion_counterexample :
    (createProject demoEnv demoDb callerA ⟨some "T2", some "D2", none, some (.str " Go"), none⟩).2.status
      = 201 ∧
    (createProject demoEnv demoDb callerA ⟨some "T2", some "D2", none, some (.str " Go"), none⟩).1.projects
      = [projectA, ⟨11, 1, "T2", "D2", "", ["Go"], 7000, 7000⟩] ∧
    (createProject demoEnv demoDb callerA ⟨some "T2", some "D2", none, some (.arr [" Go"]), none⟩).1.projects
      = [projectA, ⟨11, 1, "T2", "D2", "", ["Go"], 7000, 7000⟩] ∧
    (["Go"] : List String) ≠ [" Go"] := by
  decide

/-- C6, amended. techStack coercion on create: for a non-empty string `s`, the create
handler does the same (same database, same answer) when the body has `techStack = s` and
when it has `techStack = [s]`, whatever the other fields; whenever it answers 201 the
stored techStack is the one-element sequence of `s` trimmed; and it does answer 201 when
the title is non-empty once trimmed, the description is non-empty and the generated
`_id` is new. -/
theorem techStack_coercion (env : Env) (db : Db) (caller : Claims) (body : ProjectBody)
    (s : String) (hs : s ≠ "") :
    createProject env db caller { body with techStack := some (.str s) } =
      createProject env db caller { body with techStack := some (.arr [s]) } ∧
    ((createProject env db caller { body with techStack := some (.str s) }).2.status = 201 →
      ∃ p : Project,
        (createProject env db caller { body with techStack := some (.str s) }).1.projects
          = db.projects ++ [p] ∧
        p.techStack = [trim s] ∧
        (createProject env db caller { body with techStack := some (.str s) }).2.body
          = p.toJson) ∧
    (∀ t d : String, body.title = some t → trim t ≠ "" → body.description = some d → d ≠ "" →
      (∀ q ∈ db.projects, q._id ≠ env.freshId) →
      (createProject env db caller { body with techStack := some (.str s) }).2.status = 201) := by
  refine ⟨?_, ?_, ?_⟩
  · simp [createProject, truthyTech, hs, toArray]
  · intro h
    rw [createProject_success env db caller _ h]
    exact ⟨_, rfl, rfl, rfl⟩
  · intro t d ht htrim hd hd0 hfresh
    have ht0 : t ≠ "" := by
      intro h0
      rw [h0] at htrim
      exact htrim trim_empty
    have hany : db.projects.any (fun q => decide (q._id = env.freshId)) = false := by
      rw [List.any_eq_false]
      intro q hq
      simpa using hfresh q hq
    simp [createProject, truthy, truthyTech, ht, hd, ht0, hd0, hs, Project.insert,
      Project.validate, Project.new, htrim, hany]

/-- Witness of C6 amended: `Go` as a string and as a one-element array. -/
theorem techStack_coercion_witness :
    "Go" ≠ "" ∧ trim "T2" ≠ "" ∧ "D2" ≠ "" ∧ (∀ q ∈ demoDb.projects, q._id ≠ demoEnv.freshId) ∧
    createProject demoEnv demoDb callerA ⟨some "T2", some "D2", none, some (.str "Go"), none⟩ =
      createProject demoEnv demoDb callerA ⟨some "T2", some "D2", none, some (.arr ["Go"]), none⟩ ∧
    (∃ p : Project,
      (createProject demoEnv demoDb callerA
        ⟨some "T2", some "D2", none, some (.str "Go"), none⟩).1.projects = demoDb.projects ++ [p] ∧
      p.techStack = [trim "Go"] ∧
      (createProject demoEnv demoDb callerA
        ⟨some "T2", some "D2", none, some (.str "Go"), none⟩).2.body = p.toJson) ∧
    (createProject demoEnv demoDb callerA
      ⟨some "T2", some "D2", none, some (.str "Go"), none⟩).2.status = 201 :=
  ⟨by decide, by decide, by decide, by decide,
    (techStack_coercion demoEnv demoDb callerA ⟨some "T2", some "D2", none, none, none⟩
      "Go" (by decide)).1,
    (techStack_coercion demoEnv demoDb callerA ⟨some "T2", some "D2", none, none, none⟩
      "Go" (by decide)).2.1 (by decide),
    (techStack_coercion demoEnv demoDb callerA ⟨some "T2", some "D2", none, none, none⟩
      "Go" (by decide)).2.2 "T2" "D2" rfl (by decide) rfl (by decide) (by decide)⟩

/-! ## Updating a project -/

/-- C7, as stated, fails: a title ` X` with a leading blank is stored as `X`, and a title
of blanks only is rejected by the validators of `save()` with 500 and nothing is
written. -/
theorem update_title_only_counterexample :
    (updateProject demoEnv demoDb callerA idA ⟨some " X", none, none, none, none⟩).2.status = 200 ∧
    (updateProject demoEnv demoDb callerA idA ⟨some " X", none, none, none, none⟩).1.projects
      = [⟨10, 1, "X", "D", "https://github.com/a/t", ["Go"], 6000, 7000⟩] ∧
    "X" ≠ " X" ∧
    updateProject demoEnv demoDb callerA idA ⟨some "  ", none, none, none, none⟩
      = (demoDb, ⟨500, errorBody "Server error"⟩) := by
  decide

/-- C7, amended. Partial update frame: for a stored project `p` of the caller (`_id`
unique, description non-empty as the schema requires) and a body that supplies only a
title `t` whose trimmed form is non-empty, update answers 200 with the stored document,
which is `p` with the title `t` trimmed and `updatedAt` set to the clock (so not earlier
than before when the clock has not gone back) and every other field as in `p`; the users
and every project with another `_id` are unchanged, and so is the number of projects. -/
theorem update_title_only (env : Env) (db : Db) (caller : Claims) (id : String) (p : Project)
    (t : String) (hu : UniqueProjectIds db) (hp : p ∈ db.projects)
    (hid : castObjectId id = some p._id) (ho : p.userId = caller.id)
    (hd : p.description ≠ "") (ht : trim t ≠ "") :
    (updateProject env db caller id ⟨some t, none, none, none, none⟩).2 =
      ⟨200, ({ p with title := trim t, updatedAt := env.now } : Project).toJson⟩ ∧
    Project.findOne (updateProject env db caller id ⟨some t, none, none, none, none⟩).1.projects
      id caller.id = .ok (some { p with title := trim t, updatedAt := env.now }) ∧
    (p.updatedAt ≤ env.now →
      p.updatedAt ≤ ({ p with title := trim t, updatedAt := env.now } : Project).updatedAt) ∧
    (updateProject env db caller id ⟨some t, none, none, none, none⟩).1.users = db.users ∧
    (updateProject env db caller id ⟨some t, none, none, none, none⟩).1.projects.length
      = db.projects.length ∧
    ∀ (i : Nat) (q : Project), db.projects[i]? = some q → q._id ≠ p._id →
      (updateProject env db caller id ⟨some t, none, none, none, none⟩).1.projects[i]? = some q := by
  have ht0 : t ≠ "" := by
    intro h0
    rw [h0] at ht
    exact ht trim_empty
  have happ : applyUpdate env ⟨some t, none, none, none, none⟩ p =
      { p with title := trim t, updatedAt := env.now } := by
    simp [applyUpdate, truthy, truthyTech, ht0]
  have hval : (applyUpdate env ⟨some t, none, none, none, none⟩ p).validate = true := by
    rw [happ]
    simp [Project.validate, ht, hd]
  rcases updateProject_owner env db caller id p ⟨some t, none, none, none, none⟩ hu hp hid ho
    with ⟨_, hr⟩ | ⟨hv, _⟩
  · rw [hr, happ]
    refine ⟨rfl, ?_, fun h => h, rfl, ?_, ?_⟩
    · exact findOne_after_write db caller id p _ hp hid rfl ho
    · exact replaceById_length _ _
    · intro i q hq hne
      exact replaceById_frame _ _ i q hq hne
  · rw [hval] at hv
    exact absurd hv (by decide)

/-- Witness of C7 amended: user A renames the sample project. -/
theorem update_title_only_witness :
    UniqueProjectIds demoDb ∧ projectA ∈ demoDb.projects ∧
    castObjectId idA = some projectA._id ∧ projectA.userId = callerA.id ∧
    projectA.description ≠ "" ∧ trim " New title " ≠ "" ∧
    (updateProject demoEnv demoDb callerA idA ⟨some " New title ", none, none, none, none⟩).2 =
      ⟨200, ({ projectA with title := trim " New title ", updatedAt := demoEnv.now } : Project).toJson⟩ ∧
    Project.findOne
      (updateProject demoEnv demoDb callerA idA ⟨some " New title ", none, none, none, none⟩).1.projects
      idA callerA.id
      = .ok (some { projectA with title := trim " New title ", updatedAt := demoEnv.now }) :=
  ⟨by decide, by decide, by decide, by decide, by decide, by decide,
    (update_title_only demoEnv demoDb callerA idA projectA " New title " (by decide) (by decide)
      (by decide) (by decide) (by decide) (by decide)).1,
    (update_title_only demoEnv demoDb callerA idA projectA " New title " (by decide) (by decide)
      (by decide) (by decide) (by decide) (by decide)).2.1⟩

/-- C8, as stated, fails: an update whose body has `githubLink` empty and a title of
blanks only is rejected by the validators of `save()`, and the stored githubLink stays
what it was. -/
theorem update_githubLink_counterexample :
    updateProject demoEnv demoDb callerA idA ⟨some "  ", none, some "", none, none⟩
      = (demoDb, ⟨500, errorBody "Server error"⟩) ∧
    Project.findOne demoDb.projects idA callerA.id = .ok (some projectA) ∧
    projectA.githubLink = "https://github.com/a/t" ∧
    projectA.githubLink ≠ "" :=
  ⟨by decide, rfl, by decide, by decide⟩

/-- C8, amended. githubLink absent or empty on update: for a stored project `p` of the
caller (`_id` unique), an update that answers 200 and whose body has `githubLink` equal
to the empty string leaves a stored githubLink that is empty, whatever it was; and
after any update whose body has no `githubLink` the stored githubLink is that of `p`. -/
theorem update_githubLink (env : Env) (db : Db) (caller : Claims) (id : String) (p : Project)
    (body : ProjectBody) (hu : UniqueProjectIds db) (hp : p ∈ db.projects)
    (hid : castObjectId id = some p._id) (ho : p.userId = caller.id) :
    (body.githubLink = some "" → (updateProject env db caller id body).2.status = 200 →
      ∃ p2 : Project,
        Project.findOne (updateProject env db caller id body).1.projects id caller.id
          = .ok (some p2) ∧ p2.githubLink = "") ∧
    (body.githubLink = none →
      ∃ p2 : Project,
        Project.findOne (updateProject env db caller id body).1.projects id caller.id
          = .ok (some p2) ∧ p2.githubLink = p.githubLink) := by
  obtain ⟨hfid, hfown, _, _⟩ := applyUpdate_fixed env body p
  have hread : Project.findOne (replaceById (applyUpdate env body p) db.projects) id caller.id
      = .ok (some (applyUpdate env body p)) :=
    findOne_after_write db caller id p _ hp hid hfid (hfown.trans ho)
  constructor
  · intro hg hok
    rcases updateProject_owner env db caller id p body hu hp hid ho with ⟨_, hr⟩ | ⟨_, hr⟩
    · rw [hr]
      refine ⟨_, hread, ?_⟩
      unfold applyUpdate
      simp only [hg]
      split <;> exact trim_empty
    · rw [hr] at hok
      simp [serverError] at hok
  · intro hg
    rcases updateProject_owner env db caller id p body hu hp hid ho with ⟨_, hr⟩ | ⟨_, hr⟩
    · rw [hr]
      refine ⟨_, hread, ?_⟩
      unfold applyUpdate
      simp only [hg]
      (repeat' split) <;> rfl
    · rw [hr]
      exact ⟨p, findOne_owner db p caller.id id hu hp hid ho, rfl⟩

/-- Witness of C8 amended: user A clears the link of the sample project, then sends a
body without the field. -/
theorem update_githubLink_witness :
    UniqueProjectIds demoDb ∧ projectA ∈ demoDb.projects ∧
    castObjectId idA = some projectA._id ∧ projectA.userId = callerA.id ∧
    (updateProject demoEnv demoDb callerA idA ⟨none, none, some "", none, none⟩).2.status = 200 ∧
    (∃ p2 : Project,
      Project.findOne (updateProject demoEnv demoDb callerA idA
        ⟨none, none, some "", none, none⟩).1.projects idA callerA.id = .ok (some p2) ∧
      p2.githubLink = "") ∧
    (∃ p2 : Project,
      Project.findOne (updateProject demoEnv demoDb callerA idA
        ⟨some "T3", none, none, none, none⟩).1.projects idA callerA.id = .ok (some p2) ∧
      p2.githubLink = projectA.githubLink) :=
  ⟨by decide, by decide, by decide, by decide, by decide,
    (update_githubLink demoEnv demoDb callerA idA projectA ⟨none, none, some "", none, none⟩
      (by decide) (by decide) (by decide) (by decide)).1 rfl (by decide),
    (update_githubLink demoEnv demoDb callerA idA projectA ⟨some "T3", none, none, none, none⟩
      (by decide) (by decide) (by decide) (by decide)).2 rfl⟩

/-! ## Registration input validation -/

/-- The cases of register, one by one. -/
theorem register_cases (lib : Libs) (env : Env) (db : Db) (body : AuthBody) :
    register lib env db body = (db, ⟨400, errorBody "All fields are required"⟩) ∨
    register lib env db body = (db, ⟨400, errorBody "Password must be at least 6 characters"⟩) ∨
    register lib env db body = (db, ⟨400, errorBody "User already exists"⟩) ∨
    register lib env db body = (db, ⟨500, errorBody "Server error"⟩) ∨
    ∃ u : User, u ∉ db.users ∧ register lib env db body =
      ({ db with users := db.users ++ [u] }, ⟨201, authBody (jwtSign lib env.now u._id u.email) u⟩) := by
  by_cases h : (register lib env db body).2.status = 201
  · obtain ⟨u, _, _, hid, _, hr⟩ := register_success lib env db body h
    exact Or.inr (Or.inr (Or.inr (Or.inr ⟨u, fun hm => hid u hm rfl, hr⟩)))
  · have hdb := register_db_unchanged lib env db body h
    unfold register at h hdb ⊢
    by_cases c1 : ¬truthy body.name = true ∨ ¬truthy body.email = true ∨ ¬truthy body.password = true
    · left; rw [if_pos c1]
    · rw [if_neg c1] at h ⊢
      simp only [] at h ⊢
      by_cases c2 : jsLength (body.password.getD "") < 6
      · right; left; rw [if_pos c2]
      · rw [if_neg c2] at h ⊢
        cases hf : User.findOne lib db.users (body.email.getD "") with
        | some v => right; right; left; rfl
        | none =>
          rw [hf] at h
          simp only [] at h ⊢
          cases hsave : User.save db (User.new lib env (body.name.getD "") (body.email.getD "")
              (lib.bcryptHash (body.password.getD "") env.salt)) with
          | error e => right; right; right; left; rfl
          | ok db2 =>
            rw [hsave] at h
            exact absurd rfl h

/-- C9. Registration input validation: when name, email or password is missing or empty,
or the password has fewer than 6 characters (as `length` counts them), register answers
400, returns the database as it was and its body carries no token; and a request with a
non-empty name, a non-empty email that no stored user has (as the schema stores it) and a
password of length exactly 6 is not answered 400. -/
theorem register_validation (lib : Libs) (env : Env) (db : Db) (body : AuthBody) :
    ((body.name = none ∨ body.name = some "" ∨ body.email = none ∨ body.email = some "" ∨
        body.password = none ∨ body.password = some "" ∨
        ∃ pw : String, body.password = some pw ∧ jsLength pw < 6) →
      (register lib env db body).2.status = 400 ∧ (register lib env db body).1 = db ∧
      "token" ∉ (register lib env db body).2.body.keys) ∧
    (∀ n e pw : String, body.name = some n → n ≠ "" → body.email = some e → e ≠ "" →
      (∀ u ∈ db.users, u.email ≠ castEmail lib e) → body.password = some pw → jsLength pw = 6 →
      (register lib env db body).2.status ≠ 400) := by
  constructor
  · intro hbad
    have hr : register lib env db body = (db, ⟨400, errorBody "All fields are required"⟩) ∨
        register lib env db body
          = (db, ⟨400, errorBody "Password must be at least 6 characters"⟩) := by
      unfold register
      by_cases c1 : ¬truthy body.name = true ∨ ¬truthy body.email = true ∨
          ¬truthy body.password = true
      · left; rw [if_pos c1]
      · right
        rw [if_neg c1]
        simp only []
        have c2 : jsLength (body.password.getD "") < 6 := by
          rcases hbad with h | h | h | h | h | h | ⟨pw, h, hlen⟩
          · exact absurd (Or.inl (by simp [truthy, h])) c1
          · exact absurd (Or.inl (by simp [truthy, h])) c1
          · exact absurd (Or.inr (Or.inl (by simp [truthy, h]))) c1
          · exact absurd (Or.inr (Or.inl (by simp [truthy, h]))) c1
          · exact absurd (Or.inr (Or.inr (by simp [truthy, h]))) c1
          · exact absurd (Or.inr (Or.inr (by simp [truthy, h]))) c1
          · rw [h]; exact hlen
        rw [if_pos c2]
    rcases hr with hr | hr <;> rw [hr] <;> simp [errorBody, Json.keys]
  · intro n e pw hn hn0 he he0 hfree hp hlen
    have hp0 : pw ≠ "" := by
      intro h0
      rw [h0, jsLength_empty] at hlen
      omega
    have hnone : User.findOne lib db.users e = none := by
      simp only [User.findOne, List.find?_eq_none, decide_eq_true_eq]
      exact hfree
    unfold register
    simp only [hn, he, hp, truthy, hn0, he0, hp0, ne_eq, not_false_eq_true, decide_True,
      not_true_eq_false, or_self, if_false, Option.getD_some, hlen, Nat.lt_irrefl, hnone]
    split <;> simp [serverError]

/-- Witness of C9: a password of five characters, and a new user with one of six. -/
theorem register_validation_witness :
    (∃ pw : String, (⟨some "C", some "c@x.com", some "12345"⟩ : AuthBody).password = some pw ∧
      jsLength pw < 6) ∧
    ((register demoLibs demoEnv demoDb ⟨some "C", some "c@x.com", some "12345"⟩).2.status = 400 ∧
      (register demoLibs demoEnv demoDb ⟨some "C", some "c@x.com", some "12345"⟩).1 = demoDb ∧
      "token" ∉ (register demoLibs demoEnv demoDb ⟨some "C", some "c@x.com", some "12345"⟩).2.body.keys) ∧
    (∀ u ∈ demoDb.users, u.email ≠ castEmail demoLibs "c@x.com") ∧ jsLength "123456" = 6 ∧
    (register demoLibs demoEnv demoDb ⟨some "C", some "c@x.com", some "123456"⟩).2.status ≠ 400 :=
  ⟨⟨"12345", rfl, by decide⟩,
    (register_validation demoLibs demoEnv demoDb ⟨some "C", some "c@x.com", some "12345"⟩).1
      (Or.inr (Or.inr (Or.inr (Or.inr (Or.inr (Or.inr ⟨"12345", rfl, by decide⟩)))))),
    by decide, by decide,
    (register_validation demoLibs demoEnv demoDb ⟨some "C", some "c@x.com", some "123456"⟩).2
      "C" "c@x.com" "123456" rfl (by decide) rfl (by decide) (by decide) rfl (by decide)⟩

/-! ## The password hash is never returned -/

/-- The cases of login, one by one. -/
theorem login_cases (lib : Libs) (env : Env) (db : Db) (body : AuthBody) :
    login lib env db body = (db, ⟨400, errorBody "All fields are required"⟩) ∨
    login lib env db body = (db, ⟨400, errorBody "Invalid credentials"⟩) ∨
    ∃ u : User, u ∈ db.users ∧ login lib env db body =
      (db, ⟨200, authBody (jwtSign lib env.now u._id u.email) u⟩) := by
  unfold login
  by_cases c1 : ¬truthy body.email = true ∨ ¬truthy body.password = true
  · left; rw [if_pos c1]
  · rw [if_neg c1]
    simp only []
    cases hf : User.findOne lib db.users (body.email.getD "") with
    | none => right; left; rfl
    | some u =>
      simp only []
      by_cases c2 : ¬lib.bcryptCompare (body.password.getD "") u.password = true
      · right; left; rw [if_pos c2]
      · right; right
        rw [if_neg c2]
        exact ⟨u, List.mem_of_find?_eq_some hf, rfl⟩

/-- The cases of the route `GET /api/auth/me`, middleware included. -/
theorem me_cases (lib : Libs) (now : Millis) (authHeader : Option String) (db : Db) :
    withAuth lib now authHeader db (me db)
      = (db, ⟨401, errorBody "Access denied. No token provided."⟩) ∨
    withAuth lib now authHeader db (me db) = (db, ⟨403, errorBody "Invalid token"⟩) ∨
    withAuth lib now authHeader db (me db) = (db, ⟨404, errorBody "User not found"⟩) ∨
    ∃ u : User, u ∈ db.users ∧ withAuth lib now authHeader db (me db) =
      (db, ⟨200, .obj [("id", .leaf (.oid u._id)), ("name", .leaf (.str u.name)),
        ("email", .leaf (.str u.email))]⟩) := by
  unfold withAuth
  cases ha : authenticateToken lib now authHeader with
  | error res =>
    have : res = ⟨401, errorBody "Access denied. No token provided."⟩ ∨
        res = ⟨403, errorBody "Invalid token"⟩ := by
      unfold authenticateToken at ha
      simp only [] at ha
      split at ha
      · injection ha with ha; exact Or.inl ha.symm
      · split at ha
        · injection ha with ha; exact Or.inl ha.symm
        · split at ha
          · cases ha
          · injection ha with ha; exact Or.inr ha.symm
    rcases this with h | h
    · left; rw [h]
    · right; left; rw [h]
  | ok user =>
    simp only [me]
    cases hf : User.findById db.users user.id with
    | none => right; right; left; rfl
    | some u => right; right; right; exact ⟨u, List.mem_of_find?_eq_some hf, rfl⟩

/-- C10. The password hash is never returned: whatever the store and the request, the
body of register and of login is an error object with the one field `error`, or the
object of a `token` and a `user` whose fields are exactly `id`, `name` and `email`; the
body of `/auth/me`, middleware included, is an error object or an object with exactly
`id`, `name` and `email`; no body has a field `password` at any depth. -/
theorem password_never_returned (lib : Libs) (env : Env) (db : Db) (body : AuthBody)
    (authHeader : Option String) :
    (((∃ msg : String, (register lib env db body).2.body = .obj [("error", .leaf (.str msg))]) ∨
       ∃ (token : String) (u : User), (register lib env db body).2.body =
        .obj [("token", .leaf (.str token)),
          ("user", .sub [("id", .oid u._id), ("name", .str u.name), ("email", .str u.email)])]) ∧
      "password" ∉ (register lib env db body).2.body.keys) ∧
    (((∃ msg : String, (login lib env db body).2.body = .obj [("error", .leaf (.str msg))]) ∨
       ∃ (token : String) (u : User), (login lib env db body).2.body =
        .obj [("token", .leaf (.str token)),
          ("user", .sub [("id", .oid u._id), ("name", .str u.name), ("email", .str u.email)])]) ∧
      "password" ∉ (login lib env db body).2.body.keys) ∧
    (((∃ msg : String, (withAuth lib env.now authHeader db (me db)).2.body
          = .obj [("error", .leaf (.str msg))]) ∨
       ∃ u : User, (withAuth lib env.now authHeader db (me db)).2.body =
        .obj [("id", .leaf (.oid u._id)), ("name", .leaf (.str u.name)),
          ("email", .leaf (.str u.email))]) ∧
      "password" ∉ (withAuth lib env.now authHeader db (me db)).2.body.keys) := by
  refine ⟨?_, ?_, ?_⟩
  · rcases register_cases lib env db body with h | h | h | h | ⟨u, _, h⟩ <;> rw [h]
    · exact ⟨Or.inl ⟨_, rfl⟩, by simp [errorBody, Json.keys]⟩
    · exact ⟨Or.inl ⟨_, rfl⟩, by simp [errorBody, Json.keys]⟩
    · exact ⟨Or.inl ⟨_, rfl⟩, by simp [errorBody, Json.keys]⟩
    · exact ⟨Or.inl ⟨_, rfl⟩, by simp [errorBody, Json.keys]⟩
    · exact ⟨Or.inr ⟨_, u, rfl⟩, by simp [authBody, publicUser, Json.keys]⟩
  · rcases login_cases lib env db body with h | h | ⟨u, _, h⟩ <;> rw [h]
    · exact ⟨Or.inl ⟨_, rfl⟩, by simp [errorBody, Json.keys]⟩
    · exact ⟨Or.inl ⟨_, rfl⟩, by simp [errorBody, Json.keys]⟩
    · exact ⟨Or.inr ⟨_, u, rfl⟩, by simp [authBody, publicUser, Json.keys]⟩
  · rcases me_cases lib env.now authHeader db with h | h | h | ⟨u, _, h⟩ <;> rw [h]
    · exact ⟨Or.inl ⟨_, rfl⟩, by simp [errorBody, Json.keys]⟩
    · exact ⟨Or.inl ⟨_, rfl⟩, by simp [errorBody, Json.keys]⟩
    · exact ⟨Or.inl ⟨_, rfl⟩, by simp [errorBody, Json.keys]⟩
    · exact ⟨Or.inr ⟨u, rfl⟩, by simp [Json.keys]⟩

/-! ## The invariant holds in every reachable database -/

theorem replaceById_ids (p : Project) (l : List Project) :
    (replaceById p l).map (fun q => q._id) = l.map (fun q => q._id) := by
  induction l with
  | nil => rfl
  | cons r rs ih =>
    simp only [replaceById]
    split
    · next h => simp [h]
    · simp [ih]

theorem replaceById_mem (p : Project) (l : List Project) (q : Project)
    (hq : q ∈ replaceById p l) : q = p ∨ q ∈ l := by
  induction l with
  | nil => simp [replaceById] at hq
  | cons r rs ih =>
    simp only [replaceById] at hq
    split at hq
    · rcases List.mem_cons.mp hq with h | h
      · exact Or.inl h
      · exact Or.inr (List.mem_cons_of_mem _ h)
    · rcases List.mem_cons.mp hq with h | h
      · exact Or.inr (h ▸ List.mem_cons_self _ _)
      · rcases ih h with h2 | h2
        · exact Or.inl h2
        · exact Or.inr (List.mem_cons_of_mem _ h2)

/-- Create writes nothing, or appends one validated document with a new `_id`. -/
theorem createProject_db (env : Env) (db : Db) (caller : Claims) (body : ProjectBody) :
    (createProject env db caller body).1 = db ∨
    ∃ p : Project, p.validate = true ∧ (∀ q ∈ db.projects, q._id ≠ p._id) ∧
      (createProject env db caller body).1 = { db with projects := db.projects ++ [p] } := by
  unfold createProject
  split
  · left; rfl
  · simp only []
    cases hins : Project.insert db (Project.new env caller.id (body.title.getD "")
        (body.description.getD "") (orEmpty body.githubLink)
        (toArray (body.techStack.getD (.arr [])))) with
    | error e => left; rfl
    | ok db2 =>
      obtain ⟨h1, h2, h3⟩ := Project.insert_ok _ _ _ hins
      right
      exact ⟨_, h1, h2, h3⟩

/-- Update writes nothing, or replaces one document by a validated one with its `_id`. -/
theorem updateProject_db (env : Env) (db : Db) (caller : Claims) (id : String)
    (body : ProjectBody) :
    (updateProject env db caller id body).1 = db ∨
    ∃ p : Project, p.validate = true ∧
      (updateProject env db caller id body).1 = { db with projects := replaceById p db.projects } := by
  unfold updateProject
  cases hf : Project.findOne db.projects id caller.id with
  | error e => left; rfl
  | ok found =>
    cases found with
    | none => left; rfl
    | some p =>
      simp only []
      cases hv : (applyUpdate env body p).validate with
      | false => left; simp [Project.save, hv]
      | true => right; exact ⟨applyUpdate env body p, hv, by simp [Project.save, hv]⟩

/-- Delete writes nothing, or erases one document. -/
theorem deleteProject_db (db : Db) (caller : Claims) (id : String) :
    (deleteProject db caller id).1 = db ∨
    ∃ p : Project, (deleteProject db caller id).1 = { db with projects := db.projects.erase p } := by
  unfold deleteProject Project.findOneAndDelete
  cases hf : Project.findOne db.projects id caller.id with
  | error e => left; rfl
  | ok found =>
    cases found with
    | none => left; rfl
    | some p => right; exact ⟨p, rfl⟩

/-- In every database the server can reach, `_id` is unique among the projects and every
project is as the schema stores it: this is what the hypotheses on the projects in the
theorems above stand for. -/
theorem Reachable.projects_valid (lib : Libs) (db : Db) (h : Reachable lib db) :
    UniqueProjectIds db ∧ (∀ p ∈ db.projects, p.Stored) := by
  induction h with
  | empty =>
    refine ⟨?_, ?_⟩
    · simp [UniqueProjectIds]
    · intro p hp; simp at hp
  | @register env body db _ ih =>
    obtain ⟨h1, h3⟩ := ih
    refine ⟨?_, ?_⟩
    · rcases register_cases lib env db body with h | h | h | h | ⟨u, _, h⟩ <;> rw [h] <;> exact h1
    · rcases register_cases lib env db body with h | h | h | h | ⟨u, _, h⟩ <;> rw [h] <;> exact h3
  | @create env user body db _ ih =>
    obtain ⟨h1, h3⟩ := ih
    rcases createProject_db env db user body with h | ⟨p, hv, hfresh, h⟩ <;> rw [h]
    · exact ⟨h1, h3⟩
    · refine ⟨?_, ?_⟩
      · simp only [UniqueProjectIds, List.map_append, List.map_cons, List.map_nil]
        rw [List.nodup_append]
        refine ⟨h1, List.nodup_singleton _, ?_⟩
        intro a ha hb
        simp only [List.mem_singleton] at hb
        obtain ⟨q, hq, hqa⟩ := List.mem_map.mp ha
        exact hfresh q hq (hqa.trans hb)
      · intro q hq
        simp only [List.mem_append, List.mem_singleton] at hq
        rcases hq with hq | hq
        · exact h3 q hq
        · rw [hq]
          simpa [Project.validate, Project.Stored] using hv
  | @update env user id body db _ ih =>
    obtain ⟨h1, h3⟩ := ih
    rcases updateProject_db env db user id body with h | ⟨p, hv, h⟩ <;> rw [h]
    · exact ⟨h1, h3⟩
    · refine ⟨?_, ?_⟩
      · simp only [UniqueProjectIds, replaceById_ids]
        exact h1
      · intro q hq
        rcases replaceById_mem p db.projects q hq with hq | hq
        · rw [hq]
          simpa [Project.validate, Project.Stored] using hv
        · exact h3 q hq
  | @delete user id db _ ih =>
    obtain ⟨h1, h3⟩ := ih
    rcases deleteProject_db db user id with h | ⟨p, h⟩ <;> rw [h]
    · exact ⟨h1, h3⟩
    · refine ⟨?_, ?_⟩
      · exact List.Nodup.sublist ((List.erase_sublist p db.projects).map _) h1
      · intro q hq
        exact h3 q (List.mem_of_mem_erase hq)

/-- In every database the server can reach, every user is as the schema stores it, for a
case conversion that leaves white space alone and is idempotent. -/
theorem Reachable.users_stored (lib : Libs) (hk : CaseKeepsSpace lib) (hi : CaseIdempotent lib)
    (db : Db) (h : Reachable lib db) : ∀ u ∈ db.users, User.Stored lib u := by
  induction h with
  | empty => intro u hu; simp at hu
  | @register env body db _ ih => exact register_preserves_stored lib hk hi env db body ih
  | @create env user body db _ ih =>
    rcases createProject_db env db user body with h | ⟨p, _, _, h⟩ <;> rw [h] <;> exact ih
  | @update env user id body db _ ih =>
    rcases updateProject_db env db user id body with h | ⟨p, _, h⟩ <;> rw [h] <;> exact ih
  | @delete user id db _ ih =>
    rcases deleteProject_db db user id with h | ⟨p, h⟩ <;> rw [h] <;> exact ih

/-- Every database the server can reach satisfies the invariant. -/
theorem Reachable.valid (lib : Libs) (hk : CaseKeepsSpace lib) (hi : CaseIdempotent lib)
    (db : Db) (h : Reachable lib db) : Db.Valid lib db :=
  ⟨(Reachable.projects_valid lib db h).1, Reachable.users_stored lib hk hi db h,
    (Reachable.projects_valid lib db h).2⟩

/-! ## The middleware -/

theorem splitFirst_no_sep (sep : Char) (w : List Char) (hw : sep ∉ w) :
    splitFirst sep w = (w, none) := by
  induction w with
  | nil => rfl
  | cons c cs ih =>
    have hc : c ≠ sep := fun h => hw (h ▸ List.mem_cons_self _ _)
    have hcs : sep ∉ cs := fun h => hw (List.mem_cons_of_mem _ h)
    simp [splitFirst, hc, ih hcs]

theorem splitFirst_append (sep : Char) (w rest : List Char) (hw : sep ∉ w) :
    splitFirst sep (w ++ sep :: rest) = (w, some rest) := by
  induction w with
  | nil => simp [splitFirst]
  | cons c cs ih =>
    have hc : c ≠ sep := fun h => hw (h ▸ List.mem_cons_self _ _)
    have hcs : sep ∉ cs := fun h => hw (List.mem_cons_of_mem _ h)
    simp [splitFirst, hc, ih hcs]

/-- The second segment of a header made of a word, a space and the rest is the first
segment of the rest. -/
theorem splitSecond_word (w rest : String) (hw : ' ' ∉ w.data) :
    splitSecond ' ' (w ++ " " ++ rest) = some ⟨(splitFirst ' ' rest.data).1⟩ := by
  have hd : (w ++ " " ++ rest).data = w.data ++ ' ' :: rest.data := by
    simp [String.data_append]
  simp only [splitSecond, hd, splitFirst_append ' ' w.data rest.data hw]

theorem splitSecond_no_space (h : String) (hh : ' ' ∉ h.data) : splitSecond ' ' h = none := by
  simp only [splitSecond, splitFirst_no_sep ' ' h.data hh]

/-- The middleware on a header whose second segment is a non-empty token: the answer is
that of `jwt.verify`. -/
theorem authenticateToken_token (lib : Libs) (now : Millis) (h t : String)
    (hs : splitSecond ' ' h = some t) (ht : t ≠ "") :
    authenticateToken lib now (some h) =
      match jwtVerify lib now t with
      | some verified => .ok verified
      | none => .error ⟨403, errorBody "Invalid token"⟩ := by
  have hne : h ≠ "" := by
    intro h0
    rw [h0] at hs
    simp [splitSecond, splitFirst] at hs
  simp only [authenticateToken, hne, if_false, hs, ht]

/-- The middleware on a header with no second segment or an empty one: 401. -/
theorem authenticateToken_no_token (lib : Libs) (now : Millis) (authHeader : Option String)
    (hno : authHeader = none ∨ ∃ h, authHeader = some h ∧
      (h = "" ∨ splitSecond ' ' h = none ∨ splitSecond ' ' h = some "")) :
    authenticateToken lib now authHeader =
      .error ⟨401, errorBody "Access denied. No token provided."⟩ := by
  rcases hno with h | ⟨h, hh, h1 | h1 | h1⟩
  · simp [authenticateToken, h]
  · simp [authenticateToken, hh, h1]
  · by_cases h0 : h = ""
    · simp [authenticateToken, hh, h0]
    · simp [authenticateToken, hh, h0, h1]
  · by_cases h0 : h = ""
    · simp [authenticateToken, hh, h0]
    · simp [authenticateToken, hh, h0, h1]

/-- C11. Authentication gate: on each of the six protected routes, whatever the store, a
request with no token (no `Authorization` header, or one with no second segment) is
answered 401, and a request whose token fails `jwt.verify` is answered 403; a token that
does not decode under the secret, and one that decodes but whose expiry has elapsed, both
fail it. In both cases the answer does not depend on the route and the database is
returned as it was: the handler has not run. -/
theorem authentication_gate (lib : Libs) (env : Env) (db : Db) (req : ProtectedRequest) :
    (∀ authHeader : Option String,
      (authHeader = none ∨ ∃ h, authHeader = some h ∧
        (h = "" ∨ splitSecond ' ' h = none ∨ splitSecond ' ' h = some "")) →
      protectedRoute lib env authHeader db req =
        (db, ⟨401, errorBody "Access denied. No token provided."⟩)) ∧
    (∀ h t : String, splitSecond ' ' h = some t → t ≠ "" → jwtVerify lib env.now t = none →
      protectedRoute lib env (some h) db req = (db, ⟨403, errorBody "Invalid token"⟩)) ∧
    (∀ t : String, lib.jwtDecode t JWT_SECRET = none → jwtVerify lib env.now t = none) ∧
    (∀ (t : String) (c : Claims), lib.jwtDecode t JWT_SECRET = some c →
      c.exp ≤ env.now / 1000 → jwtVerify lib env.now t = none) := by
  refine ⟨?_, ?_, ?_, ?_⟩
  · intro authHeader hno
    simp only [protectedRoute, withAuth, authenticateToken_no_token lib env.now authHeader hno]
  · intro h t hs ht hv
    simp only [protectedRoute, withAuth, authenticateToken_token lib env.now h t hs ht, hv]
  · intro t hd
    simp only [jwtVerify, hd]
  · intro t c hd hexp
    simp only [jwtVerify, hd, hexp, if_true]

/-- Witness of C11: deleting the sample project with no header, with a token that the
sample library does not decode, and with a token of user A that expired. -/
theorem authentication_gate_witness :
    protectedRoute demoLibs demoEnv none demoDb (.delete idA) =
      (demoDb, ⟨401, errorBody "Access denied. No token provided."⟩) ∧
    splitSecond ' ' "Bearer garbage" = some "garbage" ∧ "garbage" ≠ "" ∧
    jwtVerify demoLibs demoEnv.now "garbage" = none ∧
    protectedRoute demoLibs demoEnv (some "Bearer garbage") demoDb (.delete idA) =
      (demoDb, ⟨403, errorBody "Invalid token"⟩) ∧
    demoLibs.jwtDecode (demoLibs.jwtEncode ⟨1, "a@x.com", 2, 5⟩ JWT_SECRET) JWT_SECRET
      = some ⟨1, "a@x.com", 2, 5⟩ ∧
    (⟨1, "a@x.com", 2, 5⟩ : Claims).exp ≤ demoEnv.now / 1000 ∧
    jwtVerify demoLibs demoEnv.now (demoLibs.jwtEncode ⟨1, "a@x.com", 2, 5⟩ JWT_SECRET) = none :=
  ⟨(authentication_gate demoLibs demoEnv demoDb (.delete idA)).1 none (Or.inl rfl),
    by decide, by decide, by decide,
    (authentication_gate demoLibs demoEnv demoDb (.delete idA)).2.1 "Bearer garbage" "garbage"
      (by decide) (by decide) (by decide),
    demoLibs_round_trip _ _, by decide,
    (authentication_gate demoLibs demoEnv demoDb (.delete idA)).2.2.2 _ ⟨1, "a@x.com", 2, 5⟩
      (demoLibs_round_trip _ _) (by decide)⟩

/-- C18. Token extraction ignores the authorization scheme: for a header made of a first
word `w`, a space and a token `t` without spaces, the outcome is that of `jwt.verify` on
`t` alone, whatever `w` is, and any two first words give the same outcome whatever
follows the space; when the header is absent, has no space (a bare token, or `Bearer`
alone) or ends at the space, the answer is 401, not 403. -/
theorem token_extraction_ignores_scheme (lib : Libs) (now : Millis) :
    (∀ w t : String, ' ' ∉ w.data → ' ' ∉ t.data → t ≠ "" →
      authenticateToken lib now (some (w ++ " " ++ t)) =
        match jwtVerify lib now t with
        | some verified => .ok verified
        | none => .error ⟨403, errorBody "Invalid token"⟩) ∧
    (∀ w1 w2 rest : String, ' ' ∉ w1.data → ' ' ∉ w2.data →
      authenticateToken lib now (some (w1 ++ " " ++ rest)) =
        authenticateToken lib now (some (w2 ++ " " ++ rest))) ∧
    authenticateToken lib now none =
      .error ⟨401, errorBody "Access denied. No token provided."⟩ ∧
    (∀ h : String, ' ' ∉ h.data →
      authenticateToken lib now (some h) =
        .error ⟨401, errorBody "Access denied. No token provided."⟩) ∧
    (∀ w : String, ' ' ∉ w.data →
      authenticateToken lib now (some (w ++ " ")) =
        .error ⟨401, errorBody "Access denied. No token provided."⟩) := by
  refine ⟨?_, ?_, ?_, ?_, ?_⟩
  · intro w t hw ht ht0
    have hs : splitSecond ' ' (w ++ " " ++ t) = some t := by
      rw [splitSecond_word w t hw, splitFirst_no_sep ' ' t.data ht]
    exact authenticateToken_token lib now _ t hs ht0
  · intro w1 w2 rest h1 h2
    have e1 := splitSecond_word w1 rest h1
    have e2 := splitSecond_word w2 rest h2
    by_cases h0 : (⟨(splitFirst ' ' rest.data).1⟩ : String) = ""
    · rw [h0] at e1 e2
      rw [authenticateToken_no_token lib now _ (Or.inr ⟨_, rfl, Or.inr (Or.inr e1)⟩),
        authenticateToken_no_token lib now _ (Or.inr ⟨_, rfl, Or.inr (Or.inr e2)⟩)]
    · rw [authenticateToken_token lib now _ _ e1 h0, authenticateToken_token lib now _ _ e2 h0]
  · exact authenticateToken_no_token lib now none (Or.inl rfl)
  · intro h hh
    exact authenticateToken_no_token lib now _
      (Or.inr ⟨h, rfl, Or.inr (Or.inl (splitSecond_no_space h hh))⟩)
  · intro w hw
    have hs : splitSecond ' ' (w ++ " ") = some "" := by
      have := splitSecond_word w "" hw
      simpa [splitFirst] using this
    exact authenticateToken_no_token lib now _ (Or.inr ⟨_, rfl, Or.inr (Or.inr hs)⟩)

/-- Witness of C18: the scheme `Token` in place of `Bearer`, and a bare token. -/
theorem token_extraction_ignores_scheme_witness :
    ' ' ∉ "Token".data ∧ ' ' ∉ "abc".data ∧ "abc" ≠ "" ∧
    (authenticateToken demoLibs 7000 (some ("Token" ++ " " ++ "abc")) =
      match jwtVerify demoLibs 7000 "abc" with
      | some verified => .ok verified
      | none => .error ⟨403, errorBody "Invalid token"⟩) ∧
    authenticateToken demoLibs 7000 (some "abc") =
      .error ⟨401, errorBody "Access denied. No token provided."⟩ :=
  ⟨by decide, by decide, by decide,
    (token_extraction_ignores_scheme demoLibs 7000).1 "Token" "abc" (by decide) (by decide)
      (by decide),
    (token_extraction_ignores_scheme demoLibs 7000).2.2.2.1 "abc" (by decide)⟩

/-! ## Listing -/

/-- C12. List is owner-scoped and newest first: whatever the store and the caller, the
list handler answers 200 with the serialisation of a sequence of projects that is a
rearrangement of the stored projects of the caller (each as often as stored, none of
anyone else) and in which `createdAt` never increases. -/
theorem list_owner_scoped_newest_first (db : Db) (user : Claims) :
    ∃ ps : List Project,
      listProjects db user = (db, ⟨200, .arr (ps.map Project.toFields)⟩) ∧
      ps.Perm (db.projects.filter (fun p => decide (p.userId = user.id))) ∧
      (∀ p : Project, p ∈ ps ↔ p ∈ db.projects ∧ p.userId = user.id) ∧
      ps.Pairwise (fun a b => b.createdAt ≤ a.createdAt) := by
  refine ⟨_, rfl, List.perm_insertionSort _ _, ?_, ?_⟩
  · intro p
    rw [(List.perm_insertionSort _ _).mem_iff]
    simp
  · haveI : IsTotal Project (fun a b => b.createdAt ≤ a.createdAt) :=
      ⟨fun a b => Nat.le_total b.createdAt a.createdAt⟩
    haveI : IsTrans Project (fun a b => b.createdAt ≤ a.createdAt) :=
      ⟨fun a b c hab hbc => Nat.le_trans hbc hab⟩
    exact List.sorted_insertionSort _ _

/-! ## Create: validation and defaults -/

/-- C13, as stated, fails: a body whose techStack is the empty array passes the check of
the handler (an array is truthy) and the project is created, with status 201 and an
empty techStack. -/
theorem create_validation_counterexample :
    (createProject demoEnv demoDb callerA ⟨some "T2", some "D2", none, some (.arr []), none⟩).2.status
      = 201 ∧
    (createProject demoEnv demoDb callerA ⟨some "T2", some "D2", none, some (.arr []), none⟩).1.projects
      = [projectA, ⟨11, 1, "T2", "D2", "", [], 7000, 7000⟩] := by
  decide

/-- C13, amended. Create validation and defaults: when title or description is missing
or the empty string, or techStack is missing or the empty string, create answers 400 and
returns the database as it was; when the body omits githubLink and the answer is 201, the
created project has an empty githubLink and the caller as owner; and on the route the
caller is the payload that the middleware verified. -/
theorem create_validation_defaults (lib : Libs) (env : Env) (db : Db) (caller : Claims)
    (body : ProjectBody) :
    ((body.title = none ∨ body.title = some "" ∨ body.description = none ∨
        body.description = some "" ∨ body.techStack = none ∨ body.techStack = some (.str "")) →
      createProject env db caller body =
        (db, ⟨400, errorBody "Title, description, and tech stack are required"⟩)) ∧
    (body.githubLink = none → (createProject env db caller body).2.status = 201 →
      ∃ p : Project,
        (createProject env db caller body).1.projects = db.projects ++ [p] ∧
        (createProject env db caller body).2.body = p.toJson ∧
        p.githubLink = "" ∧ p.userId = caller.id) ∧
    (∀ authHeader : Option String, authenticateToken lib env.now authHeader = .ok caller →
      protectedRoute lib env authHeader db (.create body) = createProject env db caller body) := by
  refine ⟨?_, ?_, ?_⟩
  · intro hbad
    have c1 : ¬truthy body.title = true ∨ ¬truthy body.description = true ∨
        ¬truthyTech body.techStack = true := by
      rcases hbad with h | h | h | h | h | h
      · exact Or.inl (by simp [truthy, h])
      · exact Or.inl (by simp [truthy, h])
      · exact Or.inr (Or.inl (by simp [truthy, h]))
      · exact Or.inr (Or.inl (by simp [truthy, h]))
      · exact Or.inr (Or.inr (by simp [truthyTech, h]))
      · exact Or.inr (Or.inr (by simp [truthyTech, h]))
    unfold createProject
    rw [if_pos c1]
  · intro hg hok
    rw [createProject_success env db caller body hok]
    refine ⟨_, rfl, rfl, ?_, rfl⟩
    simp only [Project.new, hg, orEmpty, truthy]
    exact trim_empty
  · intro authHeader hauth
    simp only [protectedRoute, withAuth, hauth, handle]

/-- Witness of C13 amended: a body without title, and a body without githubLink. -/
theorem create_validation_defaults_witness :
    createProject demoEnv demoDb callerA ⟨none, some "D2", none, some (.str "Go"), none⟩ =
      (demoDb, ⟨400, errorBody "Title, description, and tech stack are required"⟩) ∧
    (createProject demoEnv demoDb callerA ⟨some "T2", some "D2", none, some (.str "Go"), none⟩).2.status
      = 201 ∧
    ∃ p : Project,
      (createProject demoEnv demoDb callerA
        ⟨some "T2", some "D2", none, some (.str "Go"), none⟩).1.projects = demoDb.projects ++ [p] ∧
      (createProject demoEnv demoDb callerA
        ⟨some "T2", some "D2", none, some (.str "Go"), none⟩).2.body = p.toJson ∧
      p.githubLink = "" ∧ p.userId = callerA.id :=
  ⟨(create_validation_defaults demoLibs demoEnv demoDb callerA
      ⟨none, some "D2", none, some (.str "Go"), none⟩).1 (Or.inl rfl),
    by decide,
    (create_validation_defaults demoLibs demoEnv demoDb callerA
      ⟨some "T2", some "D2", none, some (.str "Go"), none⟩).2.1 rfl (by decide)⟩

/-! ## A token sent back as `Bearer` -/

/-- The middleware accepts the token signed for a user, sent as the client sends it, as
long as it has not expired, and sets `req.user` to the payload signed. -/
theorem authenticateToken_bearer (lib : Libs) (now issued : Millis) (id : ObjectId)
    (email : String)
    (h : TokenOk lib ⟨id, email, issued / 1000, issued / 1000 + SEVEN_DAYS⟩)
    (hexp : now / 1000 < issued / 1000 + SEVEN_DAYS) :
    authenticateToken lib now (some (bearer (jwtSign lib issued id email)))
      = .ok ⟨id, email, issued / 1000, issued / 1000 + SEVEN_DAYS⟩ := by
  obtain ⟨hrt, hne, hns⟩ := h
  have hne : jwtSign lib issued id email ≠ "" := hne
  have hns : ' ' ∉ (jwtSign lib issued id email).data := hns
  have hrt : lib.jwtDecode (jwtSign lib issued id email) JWT_SECRET
      = some ⟨id, email, issued / 1000, issued / 1000 + SEVEN_DAYS⟩ := hrt
  have hb : bearer (jwtSign lib issued id email) = "Bearer" ++ " " ++ jwtSign lib issued id email := by
    unfold bearer
    rfl
  have hs : splitSecond ' ' (bearer (jwtSign lib issued id email))
      = some (jwtSign lib issued id email) := by
    rw [hb, splitSecond_word _ _ (by decide), splitFirst_no_sep ' ' _ hns]
  rw [authenticateToken_token lib now _ _ hs hne]
  simp only [jwtVerify, hrt, if_neg (Nat.not_le.mpr hexp)]

/-- The tokens of the sample library are as `TokenOk` asks, for an email without
space. -/
theorem demoLibs_tokenOk (c : Claims) (he : ' ' ∉ c.email.data) : TokenOk demoLibs c := by
  refine ⟨demoLibs_round_trip c JWT_SECRET, ?_, ?_⟩
  · intro h0
    have := congrArg String.data h0
    simp [demoLibs] at this
  · simp only [demoLibs, List.mem_append, List.mem_cons, List.mem_replicate, not_or]
    refine ⟨by simp, by simp, by simp, by simp, by simp, by simp, by simp, by simp, by decide, he⟩


/-! ## The owner of a project never changes -/

/-- Update writes nothing, or replaces a stored document by the result of the
assignments on it. -/
theorem updateProject_write (env : Env) (db : Db) (caller : Claims) (id : String)
    (body : ProjectBody) :
    (updateProject env db caller id body).1 = db ∨
    ∃ p : Project, p ∈ db.projects ∧
      (updateProject env db caller id body).1 =
        { db with projects := replaceById (applyUpdate env body p) db.projects } := by
  unfold updateProject
  cases hf : Project.findOne db.projects id caller.id with
  | error e => left; rfl
  | ok found =>
    cases found with
    | none => left; rfl
    | some p =>
      have hp : p ∈ db.projects := by
        unfold Project.findOne at hf
        split at hf
        · cases hf
        · injection hf with hf
          exact List.mem_of_find?_eq_some hf
      simp only []
      cases hv : (applyUpdate env body p).validate with
      | false => left; simp [Project.save, hv]
      | true => right; exact ⟨p, hp, by simp [Project.save, hv]⟩

/-- No handler behind the middleware changes the owner of a stored project. -/
theorem handle_owner (env : Env) (db : Db) (caller : Claims) (req : ProtectedRequest)
    (hu : UniqueProjectIds db) (p q : Project) (hp : p ∈ db.projects)
    (hq : q ∈ (handle env db caller req).1.projects) (hid : q._id = p._id) :
    q.userId = p.userId := by
  have hsame : ∀ x ∈ db.projects, x._id = p._id → x.userId = p.userId := by
    intro x hx hxid
    rw [List.inj_on_of_nodup_map hu hx hp hxid]
  cases req with
  | me =>
    have : (me db caller).1 = db := by
      unfold me
      split <;> rfl
    simp only [handle, this] at hq
    exact hsame q hq hid
  | list => exact hsame q hq hid
  | get id =>
    have : (getProject db caller id).1 = db := by
      unfold getProject
      split <;> rfl
    simp only [handle, this] at hq
    exact hsame q hq hid
  | create body =>
    simp only [handle] at hq
    rcases createProject_db env db caller body with h | ⟨n, _, hfresh, h⟩ <;> rw [h] at hq
    · exact hsame q hq hid
    · simp only [List.mem_append, List.mem_singleton] at hq
      rcases hq with hq | hq
      · exact hsame q hq hid
      · exact absurd (by rw [← hq]; exact hid.symm) (hfresh p hp)
  | update id body =>
    simp only [handle] at hq
    rcases updateProject_write env db caller id body with h | ⟨o, ho, h⟩ <;> rw [h] at hq
    · exact hsame q hq hid
    · obtain ⟨h1, h2, _, _⟩ := applyUpdate_fixed env body o
      rcases replaceById_mem _ _ q hq with hq | hq
      · rw [hq, h2]
        exact hsame o ho (by rw [← h1, ← hq]; exact hid)
      · exact hsame q hq hid
  | delete id =>
    simp only [handle] at hq
    rcases deleteProject_db db caller id with h | ⟨d, h⟩ <;> rw [h] at hq
    · exact hsame q hq hid
    · exact hsame q (List.mem_of_mem_erase hq) hid

/-- C15. Owner is immutable after creation: in a store where `_id` is unique, for every
request to any of the eight routes, whatever its body (a `userId` field included), a
project stored before the request and a project stored after it with the same `_id` have
the same owner. -/
theorem owner_immutable (lib : Libs) (env : Env) (db : Db) (req : Request)
    (hu : UniqueProjectIds db) (p q : Project) (hp : p ∈ db.projects)
    (hq : q ∈ (serve lib env db req).1.projects) (hid : q._id = p._id) :
    q.userId = p.userId := by
  have hsame : ∀ x ∈ db.projects, x._id = p._id → x.userId = p.userId := by
    intro x hx hxid
    rw [List.inj_on_of_nodup_map hu hx hp hxid]
  cases req with
  | register body =>
    simp only [serve] at hq
    rcases register_cases lib env db body with h | h | h | h | ⟨u, _, h⟩ <;> rw [h] at hq <;>
      exact hsame q hq hid
  | login body =>
    simp only [serve] at hq
    rcases login_cases lib env db body with h | h | ⟨u, _, h⟩ <;> rw [h] at hq <;>
      exact hsame q hq hid
  | secured authHeader r =>
    simp only [serve, protectedRoute, withAuth] at hq
    cases ha : authenticateToken lib env.now authHeader with
    | error res =>
      rw [ha] at hq
      exact hsame q hq hid
    | ok user =>
      rw [ha] at hq
      exact handle_owner env db user r hu p q hp hq hid


/-- A request behind the middleware with a header that it accepts is answered by the
handler, with the verified payload as `req.user`. -/
theorem serve_secured (lib : Libs) (env : Env) (db : Db) (authHeader : Option String)
    (req : ProtectedRequest) (user : Claims)
    (h : authenticateToken lib env.now authHeader = .ok user) :
    serve lib env db (.secured authHeader req) = handle env db user req := by
  simp only [serve, protectedRoute, withAuth, h]

/-- The token that the sample library signs for user A at time 5000 is well formed. -/
theorem demoToken_ok :
    TokenOk demoLibs ⟨1, "a@x.com", 5000 / 1000, 5000 / 1000 + SEVEN_DAYS⟩ :=
  demoLibs_tokenOk _ (by decide)

theorem demoToken_fresh : demoEnv.now / 1000 < 5000 / 1000 + SEVEN_DAYS := by
  decide

/-- The middleware accepts that token at the time of the sample request. -/
theorem demoToken_auth :
    authenticateToken demoLibs demoEnv.now (some (bearer (jwtSign demoLibs 5000 1 "a@x.com")))
      = .ok ⟨1, "a@x.com", 5000 / 1000, 5000 / 1000 + SEVEN_DAYS⟩ :=
  authenticateToken_bearer demoLibs demoEnv.now 5000 1 "a@x.com" demoToken_ok demoToken_fresh

theorem demoUpdate_mem :
    (⟨10, 1, "T9", "D", "https://github.com/a/t", ["Go"], 6000, 7000⟩ : Project) ∈
      (serve demoLibs demoEnv demoDb (.secured
        (some (bearer (jwtSign demoLibs 5000 1 "a@x.com")))
        (.update idA ⟨some "T9", none, none, none, some "2"⟩))).1.projects := by
  rw [serve_secured demoLibs demoEnv demoDb _ _ _ demoToken_auth]
  decide

/-- Witness of C15: user A, with a token of the sample library, updates the sample project
with a body that carries the `userId` of user B. -/
theorem owner_immutable_witness :
    UniqueProjectIds demoDb ∧ projectA ∈ demoDb.projects ∧
    (⟨10, 1, "T9", "D", "https://github.com/a/t", ["Go"], 6000, 7000⟩ : Project) ∈
      (serve demoLibs demoEnv demoDb (.secured
        (some (bearer (jwtSign demoLibs 5000 1 "a@x.com")))
        (.update idA ⟨some "T9", none, none, none, some "2"⟩))).1.projects ∧
    (⟨10, 1, "T9", "D", "https://github.com/a/t", ["Go"], 6000, 7000⟩ : Project).userId
      = projectA.userId :=
  ⟨by decide, by decide, demoUpdate_mem,
    owner_immutable demoLibs demoEnv demoDb (.secured
        (some (bearer (jwtSign demoLibs 5000 1 "a@x.com")))
        (.update idA ⟨some "T9", none, none, none, some "2"⟩)) (by decide) projectA
      ⟨10, 1, "T9", "D", "https://github.com/a/t", ["Go"], 6000, 7000⟩ (by decide)
      demoUpdate_mem rfl⟩

/-! ## White space at the ends of a string -/

/-- A string is a fixed point of `trim` exactly when it has no leading and no trailing
white space. -/
theorem trim_eq_self_iff (t : String) : trim t = t ↔ NoOuterSpace t := by
  cases t with
  | mk d =>
    simp only [trim, NoOuterSpace, String.ext_iff, Option.mem_def]
    constructor
    · intro h
      have hlen1 : ((d.dropWhile isJsWhiteSpace).rdropWhile isJsWhiteSpace).length
          ≤ (d.dropWhile isJsWhiteSpace).length :=
        (List.rdropWhile_prefix isJsWhiteSpace (d.dropWhile isJsWhiteSpace)).length_le
      have hsuf : d.dropWhile isJsWhiteSpace <:+ d := List.dropWhile_suffix isJsWhiteSpace
      have hlen2 := hsuf.length_le
      rw [h] at hlen1
      have hd : d.dropWhile isJsWhiteSpace = d := hsuf.eq_of_length (by omega)
      rw [hd] at h
      constructor
      · intro c hc
        cases d with
        | nil => simp at hc
        | cons a l =>
          simp only [List.head?_cons, Option.some.injEq] at hc
          have := (List.dropWhile_eq_self_iff.mp hd) (by simp)
          simpa [hc] using this
      · intro c hc
        by_cases hnil : d = []
        · simp [hnil] at hc
        · rw [List.getLast?_eq_getLast d hnil] at hc
          have := (List.rdropWhile_eq_self_iff.mp h) hnil
          simp only [Option.some.injEq] at hc
          simpa [hc] using this
    · intro ⟨h1, h2⟩
      have hd : d.dropWhile isJsWhiteSpace = d := by
        rw [List.dropWhile_eq_self_iff]
        intro hl
        cases d with
        | nil => simp at hl
        | cons a l => simpa using h1 a rfl
      rw [hd, List.rdropWhile_eq_self_iff]
      intro hnil
      simpa using h2 _ (List.getLast?_eq_getLast d hnil)

/-- What `trim` returns has no leading and no trailing white space. -/
theorem noOuterSpace_trim (t : String) : NoOuterSpace (trim t) :=
  (trim_eq_self_iff _).mp (trim_trim t)

/-! ## The stored techStack -/

/-- Create writes nothing, or appends `Project.new` of the request. -/
theorem createProject_write (env : Env) (db : Db) (caller : Claims) (body : ProjectBody) :
    (createProject env db caller body).1 = db ∨
    ((createProject env db caller body).2.status = 201 ∧
      (createProject env db caller body).1 = { db with projects := db.projects ++
        [Project.new env caller.id (body.title.getD "") (body.description.getD "")
          (orEmpty body.githubLink) (toArray (body.techStack.getD (.arr [])))] }) := by
  by_cases h : (createProject env db caller body).2.status = 201
  · right
    refine ⟨h, ?_⟩
    rw [createProject_success env db caller body h]
  · left
    unfold createProject at h ⊢
    split
    · rfl
    · next c1 =>
      rw [if_neg c1] at h
      simp only [] at h ⊢
      cases hins : Project.insert db (Project.new env caller.id (body.title.getD "")
          (body.description.getD "") (orEmpty body.githubLink)
          (toArray (body.techStack.getD (.arr [])))) with
      | error e => rfl
      | ok db2 =>
        rw [hins] at h
        exact absurd rfl h

/-- The techStack after the assignments of an update: the truthy value supplied, as an
array and trimmed, or else the one before. -/
theorem applyUpdate_techStack_eq (env : Env) (body : ProjectBody) (p : Project) :
    (applyUpdate env body p).techStack =
      if truthyTech body.techStack then (toArray (body.techStack.getD (.arr []))).map trim
      else p.techStack := by
  unfold applyUpdate
  by_cases h1 : truthy body.title = true <;> by_cases h2 : truthy body.description = true <;>
    by_cases h3 : truthyTech body.techStack = true <;>
    cases h4 : body.githubLink <;> simp only [h1, h2, h3, if_true, if_false] <;> rfl

/-- The techStack after the assignments of an update is the one before, or a sequence
of trimmed strings. -/
theorem applyUpdate_techStack (env : Env) (body : ProjectBody) (p : Project) :
    (applyUpdate env body p).techStack = p.techStack ∨
    ∃ xs : List String, (applyUpdate env body p).techStack = xs.map trim := by
  rw [applyUpdate_techStack_eq]
  by_cases h : truthyTech body.techStack = true
  · right
    exact ⟨_, by rw [if_pos h]⟩
  · left
    rw [if_neg h]

/-- In every database the server can reach, the entries of every stored techStack are
fixed points of `trim`. -/
theorem Reachable.techStack_trimmed (lib : Libs) (db : Db) (h : Reachable lib db) :
    ∀ p ∈ db.projects, ∀ x ∈ p.techStack, trim x = x := by
  induction h with
  | empty => intro p hp; simp at hp
  | @register env body db _ ih =>
    rcases register_cases lib env db body with h | h | h | h | ⟨u, _, h⟩ <;> rw [h] <;> exact ih
  | @create env user body db _ ih =>
    rcases createProject_write env db user body with h | ⟨_, h⟩ <;> rw [h]
    · exact ih
    · intro p hp x hx
      simp only [List.mem_append, List.mem_singleton] at hp
      rcases hp with hp | hp
      · exact ih p hp x hx
      · rw [hp] at hx
        simp only [Project.new, List.mem_map] at hx
        obtain ⟨y, _, hy⟩ := hx
        rw [← hy]
        exact trim_trim y
  | @update env user id body db _ ih =>
    rcases updateProject_write env db user id body with h | ⟨o, ho, h⟩ <;> rw [h]
    · exact ih
    · intro p hp x hx
      rcases replaceById_mem _ _ p hp with hp | hp
      · rw [hp] at hx
        rcases applyUpdate_techStack env body o with ht | ⟨xs, ht⟩
        · rw [ht] at hx
          exact ih o ho x hx
        · rw [ht, List.mem_map] at hx
          obtain ⟨y, _, hy⟩ := hx
          rw [← hy]
          exact trim_trim y
      · exact ih p hp x hx
  | @delete user id db _ ih =>
    rcases deleteProject_db db user id with h | ⟨d, h⟩ <;> rw [h]
    · exact ih
    · intro p hp
      exact ih p (List.mem_of_mem_erase hp)


/-- C16, as stated, fails: created on the empty store with a techStack that is the array
of one empty string, a project is stored with an empty string as its only entry; created
with the empty array, it is stored with no entry at all. -/
theorem stored_techStack_counterexample :
    createProject demoEnv ⟨[], []⟩ callerA ⟨some "T", some "D", none, some (.arr [""]), none⟩ =
      (⟨[], [⟨11, 1, "T", "D", "", [""], 7000, 7000⟩]⟩,
        ⟨201, (⟨11, 1, "T", "D", "", [""], 7000, 7000⟩ : Project).toJson⟩) ∧
    "" ∈ (⟨11, 1, "T", "D", "", [""], 7000, 7000⟩ : Project).techStack ∧
    createProject demoEnv ⟨[], []⟩ callerA ⟨some "T", some "D", none, some (.arr []), none⟩ =
      (⟨[], [⟨11, 1, "T", "D", "", [], 7000, 7000⟩]⟩,
        ⟨201, (⟨11, 1, "T", "D", "", [], 7000, 7000⟩ : Project).toJson⟩) := by
  decide

/-- C16, amended. Stored tech stack: in every store reachable from the empty store through
the handlers, every entry of every techStack is a string with no leading and no trailing
white space; and a project created with status 201 has as techStack the entries supplied
(the one entry, for a bare string), each trimmed, in order. -/
theorem stored_techStack (lib : Libs) (db : Db) (h : Reachable lib db) :
    (∀ p ∈ db.projects, ∀ x ∈ p.techStack, NoOuterSpace x) ∧
    (∀ (env : Env) (caller : Claims) (body : ProjectBody),
      (createProject env db caller body).2.status = 201 →
      ∃ (input : TechStackInput) (p : Project), body.techStack = some input ∧
        (createProject env db caller body).1.projects = db.projects ++ [p] ∧
        p.techStack = (toArray input).map trim) := by
  constructor
  · intro p hp x hx
    exact (trim_eq_self_iff x).mp (Reachable.techStack_trimmed lib db h p hp x hx)
  · intro env caller body hok
    have hts : ∃ input, body.techStack = some input := by
      cases hb : body.techStack with
      | some input => exact ⟨input, rfl⟩
      | none =>
        have : createProject env db caller body =
            (db, ⟨400, errorBody "Title, description, and tech stack are required"⟩) := by
          unfold createProject
          rw [if_pos (Or.inr (Or.inr (by simp [truthyTech, hb])))]
        rw [this] at hok
        simp at hok
    obtain ⟨input, hin⟩ := hts
    refine ⟨input, Project.new env caller.id (body.title.getD "") (body.description.getD "")
      (orEmpty body.githubLink) (toArray (body.techStack.getD (.arr []))), hin, ?_, ?_⟩
    · rw [createProject_success env db caller body hok]
    · simp only [Project.new, hin, Option.getD_some]

/-- Witness of C16 amended: the store after one create, and a second create on it. -/
theorem stored_techStack_witness :
    Reachable demoLibs
      (createProject demoEnv ⟨[], []⟩ callerA ⟨some "T", some "D", none, some (.str " Go "), none⟩).1 ∧
    (∀ p ∈ (createProject demoEnv ⟨[], []⟩ callerA
        ⟨some "T", some "D", none, some (.str " Go "), none⟩).1.projects,
      ∀ x ∈ p.techStack, NoOuterSpace x) ∧
    (createProject ⟨8000, 12, ""⟩
      (createProject demoEnv ⟨[], []⟩ callerA ⟨some "T", some "D", none, some (.str " Go "), none⟩).1
      callerA ⟨some "U", some "E", none, some (.arr [" Rust", "Lean "]), none⟩).2.status = 201 ∧
    ∃ (input : TechStackInput) (p : Project),
      (⟨some "U", some "E", none, some (.arr [" Rust", "Lean "]), none⟩ : ProjectBody).techStack
        = some input ∧
      (createProject ⟨8000, 12, ""⟩
        (createProject demoEnv ⟨[], []⟩ callerA
          ⟨some "T", some "D", none, some (.str " Go "), none⟩).1
        callerA ⟨some "U", some "E", none, some (.arr [" Rust", "Lean "]), none⟩).1.projects
        = (createProject demoEnv ⟨[], []⟩ callerA
          ⟨some "T", some "D", none, some (.str " Go "), none⟩).1.projects ++ [p] ∧
      p.techStack = (toArray input).map trim :=
  ⟨Reachable.create _ _ _ Reachable.empty,
    (stored_techStack demoLibs _ (Reachable.create _ _ _ Reachable.empty)).1,
    by decide,
    (stored_techStack demoLibs _ (Reachable.create _ _ _ Reachable.empty)).2
      ⟨8000, 12, ""⟩ callerA ⟨some "U", some "E", none, some (.arr [" Rust", "Lean "]), none⟩
      (by decide)⟩


/-! ## Update: empty values -/

/-- C17, as stated, fails: an update whose body has an empty description and a title of
blanks only is answered 500, not 200; and an empty array as techStack is not treated as
an absent field, it replaces the stored techStack by the empty sequence. -/
theorem update_ignores_empty_counterexample :
    updateProject demoEnv demoDb callerA idA ⟨some "  ", some "", none, none, none⟩
      = (demoDb, ⟨500, errorBody "Server error"⟩) ∧
    (updateProject demoEnv demoDb callerA idA ⟨none, none, none, some (.arr []), none⟩).1.projects
      = [⟨10, 1, "T", "D", "https://github.com/a/t", [], 6000, 7000⟩] ∧
    (updateProject demoEnv demoDb callerA idA ⟨none, none, none, none, none⟩).1.projects
      = [⟨10, 1, "T", "D", "https://github.com/a/t", ["Go"], 6000, 7000⟩] := by
  decide

/-- The title after the assignments of an update. -/
theorem applyUpdate_title_eq (env : Env) (body : ProjectBody) (p : Project) :
    (applyUpdate env body p).title =
      if truthy body.title then trim (body.title.getD "") else p.title := by
  unfold applyUpdate
  by_cases h1 : truthy body.title = true <;> by_cases h2 : truthy body.description = true <;>
    by_cases h3 : truthyTech body.techStack = true <;>
    cases h4 : body.githubLink <;> simp only [h1, h2, h3, if_true, if_false] <;> rfl

/-- The description after the assignments of an update. -/
theorem applyUpdate_description_eq (env : Env) (body : ProjectBody) (p : Project) :
    (applyUpdate env body p).description =
      if truthy body.description then body.description.getD "" else p.description := by
  unfold applyUpdate
  by_cases h1 : truthy body.title = true <;> by_cases h2 : truthy body.description = true <;>
    by_cases h3 : truthyTech body.techStack = true <;>
    cases h4 : body.githubLink <;> simp only [h1, h2, h3, if_true, if_false] <;> rfl

/-- A truthy string field is a non-empty string. -/
theorem truthy_getD (v : Option String) (h : truthy v = true) : v.getD "" ≠ "" := by
  cases v with
  | none => simp [truthy] at h
  | some s => simpa [truthy] using h

/-- C17, amended. Update ignores an empty title, description or techStack string: the
update handler does the same with a title (a description, a techStack) that is the empty
string as with none at all, whatever the rest of the body. For a stored project `p` of the
caller (`_id` unique, `p` as the schema stores it), an update whose title is the empty
string answers 200; so does one whose description is the empty string, provided its title
is absent, empty or non-empty once trimmed; in both cases the stored title (description)
is that of `p` and `updatedAt` is the clock of the update. An empty githubLink is not
ignored: on a project with a link it does not do the same as an absent one. -/
theorem update_ignores_empty (env : Env) (db : Db) (caller : Claims) (id : String)
    (body : ProjectBody) :
    (updateProject env db caller id { body with title := some "" } =
      updateProject env db caller id { body with title := none }) ∧
    (updateProject env db caller id { body with description := some "" } =
      updateProject env db caller id { body with description := none }) ∧
    (updateProject env db caller id { body with techStack := some (.str "") } =
      updateProject env db caller id { body with techStack := none }) ∧
    (∀ p : Project, UniqueProjectIds db → p ∈ db.projects → castObjectId id = some p._id →
      p.userId = caller.id → p.Stored →
      (body.title = some "" →
        (updateProject env db caller id body).2.status = 200 ∧
        ∃ p2 : Project,
          Project.findOne (updateProject env db caller id body).1.projects id caller.id
            = .ok (some p2) ∧ p2.title = p.title ∧ p2.updatedAt = env.now) ∧
      (body.description = some "" →
        (body.title = none ∨ body.title = some "" ∨ ∃ t, body.title = some t ∧ trim t ≠ "") →
        (updateProject env db caller id body).2.status = 200 ∧
        ∃ p2 : Project,
          Project.findOne (updateProject env db caller id body).1.projects id caller.id
            = .ok (some p2) ∧ p2.description = p.description ∧ p2.updatedAt = env.now) ∧
      (p.githubLink ≠ "" →
        updateProject env db caller id ⟨none, none, some "", none, none⟩ ≠
          updateProject env db caller id ⟨none, none, none, none, none⟩)) := by
  refine ⟨?_, ?_, ?_, ?_⟩
  · simp [updateProject, applyUpdate, truthy]
  · simp [updateProject, applyUpdate, truthy]
  · simp [updateProject, applyUpdate, truthyTech]
  · intro p hu hp hid ho hst
    obtain ⟨hfid, hfown, _, hfupd⟩ := applyUpdate_fixed env body p
    have hread : Project.findOne (replaceById (applyUpdate env body p) db.projects) id caller.id
        = .ok (some (applyUpdate env body p)) :=
      findOne_after_write db caller id p _ hp hid hfid (hfown.trans ho)
    obtain ⟨hpt, hpd⟩ := hst
    have hdesc : (applyUpdate env body p).description ≠ "" := by
      rw [applyUpdate_description_eq]
      by_cases hd : truthy body.description = true
      · rw [if_pos hd]
        exact truthy_getD _ hd
      · rw [if_neg hd]
        exact hpd
    refine ⟨?_, ?_, ?_⟩
    · intro ht
      have htitle : (applyUpdate env body p).title = p.title := by
        rw [applyUpdate_title_eq, ht]
        simp [truthy]
      have hval : (applyUpdate env body p).validate = true := by
        simp [Project.validate, htitle, hpt, hdesc]
      rcases updateProject_owner env db caller id p body hu hp hid ho with ⟨_, hr⟩ | ⟨hv, _⟩
      · rw [hr]
        exact ⟨rfl, _, hread, htitle, hfupd⟩
      · rw [hval] at hv
        exact absurd hv (by decide)
    · intro hd htc
      have hdsame : (applyUpdate env body p).description = p.description := by
        rw [applyUpdate_description_eq, hd]
        simp [truthy]
      have htitle : (applyUpdate env body p).title ≠ "" := by
        rw [applyUpdate_title_eq]
        rcases htc with h | h | ⟨t, h, ht⟩
        · simpa [h, truthy] using hpt
        · simpa [h, truthy] using hpt
        · have ht0 : t ≠ "" := by
            intro h0
            rw [h0] at ht
            exact ht trim_empty
          simpa [h, truthy, ht0] using ht
      have hval : (applyUpdate env body p).validate = true := by
        simp [Project.validate, htitle, hdesc]
      rcases updateProject_owner env db caller id p body hu hp hid ho with ⟨_, hr⟩ | ⟨hv, _⟩
      · rw [hr]
        exact ⟨rfl, _, hread, hdsame, hfupd⟩
      · rw [hval] at hv
        exact absurd hv (by decide)
    · intro hg heq
      have h1 : applyUpdate env ⟨none, none, some "", none, none⟩ p =
          { p with githubLink := "", updatedAt := env.now } := by
        simp [applyUpdate, truthy, truthyTech, trim_empty]
      have h2 : applyUpdate env ⟨none, none, none, none, none⟩ p =
          { p with updatedAt := env.now } := by
        simp [applyUpdate, truthy, truthyTech]
      have hv1 : ({ p with githubLink := "", updatedAt := env.now } : Project).validate = true := by
        simp [Project.validate, hpt, hpd]
      have hv2 : ({ p with updatedAt := env.now } : Project).validate = true := by
        simp [Project.validate, hpt, hpd]
      have hf := findOne_owner db p caller.id id hu hp hid ho
      have e1 : (updateProject env db caller id ⟨none, none, some "", none, none⟩).2.body =
          ({ p with githubLink := "", updatedAt := env.now } : Project).toJson := by
        simp [updateProject, hf, h1, Project.save, hv1]
      have e2 : (updateProject env db caller id ⟨none, none, none, none, none⟩).2.body =
          ({ p with updatedAt := env.now } : Project).toJson := by
        simp [updateProject, hf, h2, Project.save, hv2]
      rw [heq, e2] at e1
      simp [Project.toJson, Project.toFields] at e1
      exact hg e1

/-- Witness of C17 amended: user A sends an empty title, then an empty description, for
the sample project. -/
theorem update_ignores_empty_witness :
    UniqueProjectIds demoDb ∧ projectA ∈ demoDb.projects ∧
    castObjectId idA = some projectA._id ∧ projectA.userId = callerA.id ∧ projectA.Stored ∧
    ((updateProject demoEnv demoDb callerA idA ⟨some "", none, none, none, none⟩).2.status = 200 ∧
      ∃ p2 : Project,
        Project.findOne (updateProject demoEnv demoDb callerA idA
          ⟨some "", none, none, none, none⟩).1.projects idA callerA.id = .ok (some p2) ∧
        p2.title = projectA.title ∧ p2.updatedAt = demoEnv.now) ∧
    ((updateProject demoEnv demoDb callerA idA ⟨none, some "", none, none, none⟩).2.status = 200 ∧
      ∃ p2 : Project,
        Project.findOne (updateProject demoEnv demoDb callerA idA
          ⟨none, some "", none, none, none⟩).1.projects idA callerA.id = .ok (some p2) ∧
        p2.description = projectA.description ∧ p2.updatedAt = demoEnv.now) ∧
    projectA.githubLink ≠ "" ∧
    updateProject demoEnv demoDb callerA idA ⟨none, none, some "", none, none⟩ ≠
      updateProject demoEnv demoDb callerA idA ⟨none, none, none, none, none⟩ :=
  ⟨by decide, by decide, by decide, by decide, by decide,
    ((update_ignores_empty demoEnv demoDb callerA idA ⟨some "", none, none, none, none⟩).2.2.2
      projectA (by decide) (by decide) (by decide) (by decide) (by decide)).1 rfl,
    ((update_ignores_empty demoEnv demoDb callerA idA ⟨none, some "", none, none, none⟩).2.2.2
      projectA (by decide) (by decide) (by decide) (by decide) (by decide)).2.1 rfl (Or.inl rfl),
    by decide,
    ((update_ignores_empty demoEnv demoDb callerA idA ⟨none, none, none, none, none⟩).2.2.2
      projectA (by decide) (by decide) (by decide) (by decide) (by decide)).2.2 (by decide)⟩



/-! ## The tech-stack field of the client form -/

theorem splitAll_ne_nil (sep : Char) (l : List Char) : splitAll sep l ≠ [] := by
  cases l with
  | nil => simp [splitAll]
  | cons c cs =>
    simp only [splitAll]
    split
    · simp
    · split <;> simp

theorem splitAll_no_sep (sep : Char) (l : List Char) (h : sep ∉ l) : splitAll sep l = [l] := by
  induction l with
  | nil => rfl
  | cons c cs ih =>
    have hc : c ≠ sep := fun e => h (e ▸ List.mem_cons_self _ _)
    have hcs : sep ∉ cs := fun e => h (List.mem_cons_of_mem _ e)
    simp [splitAll, hc, ih hcs]

theorem splitAll_append (sep : Char) (a r : List Char) (h : sep ∉ a) :
    splitAll sep (a ++ sep :: r) = a :: splitAll sep r := by
  induction a with
  | nil => simp [splitAll]
  | cons c cs ih =>
    have hc : c ≠ sep := fun e => h (e ▸ List.mem_cons_self _ _)
    have hcs : sep ∉ cs := fun e => h (List.mem_cons_of_mem _ e)
    simp [splitAll, hc, ih hcs]

/-- No segment of a split contains the separator. -/
theorem splitAll_mem (sep : Char) (l seg : List Char) (h : seg ∈ splitAll sep l) :
    sep ∉ seg := by
  induction l generalizing seg with
  | nil =>
    simp only [splitAll, List.mem_singleton] at h
    simp [h]
  | cons c cs ih =>
    simp only [splitAll] at h
    by_cases hc : c = sep
    · rw [if_pos hc] at h
      rcases List.mem_cons.mp h with h | h
      · simp [h]
      · exact ih seg h
    · rw [if_neg hc] at h
      cases hs : splitAll sep cs with
      | nil => exact absurd hs (splitAll_ne_nil sep cs)
      | cons s0 ss =>
        rw [hs] at h
        simp only [List.mem_cons] at h
        rcases h with h | h
        · rw [h]
          intro hm
          rcases List.mem_cons.mp hm with hm | hm
          · exact hc hm.symm
          · exact ih s0 (by rw [hs]; exact List.mem_cons_self _ _) hm
        · exact ih seg (by rw [hs]; exact List.mem_cons_of_mem _ h)

/-- The characters of a trimmed string are characters of the string. -/
theorem mem_of_mem_trim (t : String) (c : Char) (h : c ∈ (trim t).data) : c ∈ t.data := by
  simp only [trim] at h
  exact (List.dropWhile_suffix isJsWhiteSpace).subset
    ((List.rdropWhile_prefix isJsWhiteSpace _).subset h)

/-- White space in front of a string is trimmed away with the rest. -/
theorem trim_ws_append (pre d : List Char) (hpre : ∀ c ∈ pre, isJsWhiteSpace c = true) :
    trim ⟨pre ++ d⟩ = trim ⟨d⟩ := by
  have : (pre ++ d).dropWhile isJsWhiteSpace = d.dropWhile isJsWhiteSpace := by
    induction pre with
    | nil => rfl
    | cons c cs ih =>
      have hc := hpre c (List.mem_cons_self _ _)
      simp only [List.cons_append, List.dropWhile_cons, hc, if_true]
      exact ih (fun x hx => hpre x (List.mem_cons_of_mem _ hx))
  simp only [trim, this]

theorem jsJoin_cons_cons (sep t u : String) (rest : List String) :
    (jsJoin sep (t :: u :: rest)).data = t.data ++ (sep.data ++ (jsJoin sep (u :: rest)).data) := by
  simp [jsJoin, String.data_append]

/-- Splitting, trimming and filtering the joined text gives the entries back, also when
white space other than a comma stands in front of the text. -/
theorem parse_join (ts : List String) (pre : List Char) (hts : ts ≠ [])
    (hpre : ∀ c ∈ pre, isJsWhiteSpace c = true ∧ c ≠ ',')
    (h : ∀ t ∈ ts, t ≠ "" ∧ NoOuterSpace t ∧ ',' ∉ t.data) :
    (((splitAll ',' (pre ++ (jsJoin ", " ts).data)).map String.mk).map trim).filter
      (fun t => decide (t ≠ "")) = ts := by
  induction ts generalizing pre with
  | nil => exact absurd rfl hts
  | cons t rest ih =>
    obtain ⟨ht0, hts1, htc⟩ := h t (List.mem_cons_self _ _)
    have hseg : ',' ∉ pre ++ t.data := by
      intro hm
      rcases List.mem_append.mp hm with hm | hm
      · exact (hpre ',' hm).2 rfl
      · exact htc hm
    have htrim : trim ⟨pre ++ t.data⟩ = t := by
      rw [trim_ws_append pre t.data (fun c hc => (hpre c hc).1)]
      exact (trim_eq_self_iff t).mpr hts1
    cases rest with
    | nil =>
      simp only [jsJoin]
      rw [splitAll_no_sep ',' _ hseg]
      simp [htrim, ht0]
    | cons u rest2 =>
      have hd : pre ++ (jsJoin ", " (t :: u :: rest2)).data =
          (pre ++ t.data) ++ ',' :: ([' '] ++ (jsJoin ", " (u :: rest2)).data) := by
        rw [jsJoin_cons_cons]
        simp
      rw [hd, splitAll_append ',' _ _ hseg]
      simp only [List.map_cons, htrim, List.filter_cons, ht0, ne_eq, not_false_eq_true,
        decide_True, if_true]
      congr 1
      apply ih [' '] (by simp)
      · intro c hc
        simp only [List.mem_singleton] at hc
        rw [hc]
        exact ⟨by decide, by decide⟩
      · intro x hx
        exact h x (List.mem_cons_of_mem _ hx)

/-- C19. Client tech-stack form round trip: with `parseTechStack` the expression of
`handleSubmit` and `showTechStack` that of `handleEdit`, every entry parsed from any text
is non-empty, has no leading and no trailing white space and contains no comma; and for
every sequence of strings that are each non-empty, comma-free and without leading or
trailing white space, parsing the text shown for it gives the sequence back. -/
theorem techStack_form_round_trip :
    (∀ (s x : String), x ∈ parseTechStack s → x ≠ "" ∧ NoOuterSpace x ∧ ',' ∉ x.data) ∧
    (∀ ts : List String, (∀ t ∈ ts, t ≠ "" ∧ NoOuterSpace t ∧ ',' ∉ t.data) →
      parseTechStack (showTechStack ts) = ts) := by
  constructor
  · intro s x hx
    simp only [parseTechStack, jsSplit, List.mem_filter, List.mem_map, decide_eq_true_eq] at hx
    obtain ⟨⟨y, ⟨seg, hseg, hy⟩, hxy⟩, hx0⟩ := hx
    refine ⟨hx0, ?_, ?_⟩
    · rw [← hxy]
      exact noOuterSpace_trim y
    · intro hm
      rw [← hxy] at hm
      have := mem_of_mem_trim y ',' hm
      rw [← hy] at this
      exact splitAll_mem ',' s.data seg hseg this
  · intro ts h
    cases ts with
    | nil => decide
    | cons t rest =>
      have := parse_join (t :: rest) [] (by simp) (by simp) h
      simpa [parseTechStack, showTechStack, jsSplit] using this


/-- Witness of C19: the text ` Go , ,Lean4,` parses to two entries, and the sequence of
`Node.js` and `Go` goes through the form unchanged. -/
theorem techStack_form_round_trip_witness :
    ("Go" : String) ∈ parseTechStack " Go , ,Lean4," ∧
    ("Go" ≠ "" ∧ NoOuterSpace "Go" ∧ ',' ∉ "Go".data) ∧
    (∀ t ∈ ["Node.js", "Go"], t ≠ "" ∧ NoOuterSpace t ∧ ',' ∉ t.data) ∧
    parseTechStack (showTechStack ["Node.js", "Go"]) = ["Node.js", "Go"] :=
  ⟨by decide, techStack_form_round_trip.1 " Go , ,Lean4," "Go" (by decide), by decide,
    techStack_form_round_trip.2 ["Node.js", "Go"] (by decide)⟩


/-! ## End to end -/

/-- A create that answers 201 used an `_id` that no stored project had. -/
theorem createProject_fresh (env : Env) (db : Db) (caller : Claims) (body : ProjectBody)
    (h : (createProject env db caller body).2.status = 201) :
    ∀ q ∈ db.projects, q._id ≠ env.freshId := by
  unfold createProject at h
  by_cases c1 : ¬truthy body.title = true ∨ ¬truthy body.description = true ∨
      ¬truthyTech body.techStack = true
  · rw [if_pos c1] at h
    simp at h
  · rw [if_neg c1] at h
    simp only [] at h
    cases hins : Project.insert db (Project.new env caller.id (body.title.getD "")
        (body.description.getD "") (orEmpty body.githubLink)
        (toArray (body.techStack.getD (.arr [])))) with
    | error e =>
      rw [hins] at h
      simp [serverError] at h
    | ok db2 =>
      exact (Project.insert_ok _ _ _ hins).2.1

/-- Deleting, as its owner, the project that was appended last and whose `_id` no other
project has: 200, and the collection is what it was before the project was appended. -/
theorem deleteProject_last (db : Db) (caller : Claims) (id : String) (p : Project)
    (hid : castObjectId id = some p._id) (ho : p.userId = caller.id)
    (hfresh : ∀ q ∈ db.projects, q._id ≠ p._id) :
    deleteProject { db with projects := db.projects ++ [p] } caller id =
      (db, ⟨200, .obj [("message", .leaf (.str "Project deleted successfully"))]⟩) := by
  have hnone : db.projects.find? (fun q => decide (q._id = p._id) && decide (q.userId = caller.id))
      = none := by
    rw [List.find?_eq_none]
    intro q hq
    simp [hfresh q hq]
  have hnot : p ∉ db.projects := fun hm => hfresh p hm rfl
  have hf : Project.findOne (db.projects ++ [p]) id caller.id = .ok (some p) := by
    simp [Project.findOne, hid, List.find?_append, hnone, ho]
  have he : (db.projects ++ [p]).erase p = db.projects := by
    rw [List.erase_append_right _ hnot]
    simp
  simp only [deleteProject, Project.findOneAndDelete, hf, he]


/-- C14. End-to-end scenario: on the empty store, registering A with `a@x.com` and
`secret1` answers 201 with a token; with that token as `Bearer`, creating the project
`T`, `D`, `Go` answers 201 with techStack the one entry `Go`, listing answers one project,
deleting the id of that project answers 200, and listing again answers the empty array
(the hash is not empty, the token is well formed, and the four later requests come before
it expires). More generally, when a create answers 201, delete by the same caller with
the id of the new project answers 200 and gives back the store of before the create, so
that no project with that id is in the caller's list. -/
theorem end_to_end_scenario (lib : Libs) (e1 e2 e3 e4 e5 : Env) (pid : String)
    (hhash : lib.bcryptHash "secret1" e1.salt ≠ "")
    (htok : TokenOk lib ⟨e1.freshId, "a@x.com", e1.now / 1000, e1.now / 1000 + SEVEN_DAYS⟩)
    (h2 : e2.now / 1000 < e1.now / 1000 + SEVEN_DAYS)
    (h3 : e3.now / 1000 < e1.now / 1000 + SEVEN_DAYS)
    (h4 : e4.now / 1000 < e1.now / 1000 + SEVEN_DAYS)
    (h5 : e5.now / 1000 < e1.now / 1000 + SEVEN_DAYS)
    (hpid : castObjectId pid = some e2.freshId) :
    serveAll lib ⟨[], []⟩
      [(e1, .register ⟨some "A", some "a@x.com", some "secret1"⟩),
       (e2, .secured (some (bearer (jwtSign lib e1.now e1.freshId "a@x.com")))
          (.create ⟨some "T", some "D", none, some (.str "Go"), none⟩)),
       (e3, .secured (some (bearer (jwtSign lib e1.now e1.freshId "a@x.com"))) .list),
       (e4, .secured (some (bearer (jwtSign lib e1.now e1.freshId "a@x.com"))) (.delete pid)),
       (e5, .secured (some (bearer (jwtSign lib e1.now e1.freshId "a@x.com"))) .list)] =
      (⟨[⟨e1.freshId, "A", "a@x.com", lib.bcryptHash "secret1" e1.salt, e1.now⟩], []⟩,
       [⟨201, .obj [("token", .leaf (.str (jwtSign lib e1.now e1.freshId "a@x.com"))),
          ("user", .sub [("id", .oid e1.freshId), ("name", .str "A"), ("email", .str "a@x.com")])]⟩,
        ⟨201, (⟨e2.freshId, e1.freshId, "T", "D", "", ["Go"], e2.now, e2.now⟩ : Project).toJson⟩,
        ⟨200, .arr [(⟨e2.freshId, e1.freshId, "T", "D", "", ["Go"], e2.now, e2.now⟩ : Project).toFields]⟩,
        ⟨200, .obj [("message", .leaf (.str "Project deleted successfully"))]⟩,
        ⟨200, .arr []⟩]) ∧
    (∀ (env : Env) (db : Db) (caller : Claims) (body : ProjectBody) (id : String),
      (createProject env db caller body).2.status = 201 → castObjectId id = some env.freshId →
      deleteProject (createProject env db caller body).1 caller id =
        (db, ⟨200, .obj [("message", .leaf (.str "Project deleted successfully"))]⟩) ∧
      ∃ ps : List Project,
        listProjects (deleteProject (createProject env db caller body).1 caller id).1 caller =
          (db, ⟨200, .arr (ps.map Project.toFields)⟩) ∧
        ∀ p ∈ ps, p._id ≠ env.freshId) := by
  constructor
  · have hA : ("A" : String) ≠ "" := by decide
    have hE : ("a@x.com" : String) ≠ "" := by decide
    have hS : ("secret1" : String) ≠ "" := by decide
    have hT : ("T" : String) ≠ "" := by decide
    have hD : ("D" : String) ≠ "" := by decide
    have hG : ("Go" : String) ≠ "" := by decide
    have hlen : ¬ jsLength "secret1" < 6 := by decide
    have htA : trim "A" = "A" := by decide
    have htT : trim "T" = "T" := by decide
    have htG : trim "Go" = "Go" := by decide
    have hcE : castEmail lib "a@x.com" = "a@x.com" := by
      have h1 : trim "a@x.com" = "a@x.com" := by decide
      have h2 : isAscii "a@x.com" = true := by decide
      have h3 : asciiToLowerCase "a@x.com" = "a@x.com" := by decide
      rw [castEmail, h1, toLowerCase_ascii lib _ h2, h3]
    have s1 : serve lib e1 ⟨[], []⟩ (.register ⟨some "A", some "a@x.com", some "secret1"⟩) =
        (⟨[⟨e1.freshId, "A", "a@x.com", lib.bcryptHash "secret1" e1.salt, e1.now⟩], []⟩,
          ⟨201, authBody (jwtSign lib e1.now e1.freshId "a@x.com")
            ⟨e1.freshId, "A", "a@x.com", lib.bcryptHash "secret1" e1.salt, e1.now⟩⟩) := by
      simp [serve, register, truthy, hA, hE, hS, hlen, User.findOne, User.new, User.save, htA,
        hcE, hhash]
    have s2 : serve lib e2
        ⟨[⟨e1.freshId, "A", "a@x.com", lib.bcryptHash "secret1" e1.salt, e1.now⟩], []⟩
        (.secured (some (bearer (jwtSign lib e1.now e1.freshId "a@x.com")))
          (.create ⟨some "T", some "D", none, some (.str "Go"), none⟩)) =
        (⟨[⟨e1.freshId, "A", "a@x.com", lib.bcryptHash "secret1" e1.salt, e1.now⟩],
          [⟨e2.freshId, e1.freshId, "T", "D", "", ["Go"], e2.now, e2.now⟩]⟩,
          ⟨201, (⟨e2.freshId, e1.freshId, "T", "D", "", ["Go"], e2.now, e2.now⟩ : Project).toJson⟩) := by
      rw [serve_secured lib e2 _ _ _ _ (authenticateToken_bearer lib e2.now e1.now e1.freshId
        "a@x.com" htok h2)]
      simp [handle, createProject, truthy, truthyTech, hT, hD, hG, orEmpty, toArray, Project.new,
        Project.insert, Project.validate, htT, htG, trim_empty]
    have s3 : serve lib e3
        ⟨[⟨e1.freshId, "A", "a@x.com", lib.bcryptHash "secret1" e1.salt, e1.now⟩],
          [⟨e2.freshId, e1.freshId, "T", "D", "", ["Go"], e2.now, e2.now⟩]⟩
        (.secured (some (bearer (jwtSign lib e1.now e1.freshId "a@x.com"))) .list) =
        (⟨[⟨e1.freshId, "A", "a@x.com", lib.bcryptHash "secret1" e1.salt, e1.now⟩],
          [⟨e2.freshId, e1.freshId, "T", "D", "", ["Go"], e2.now, e2.now⟩]⟩,
          ⟨200, .arr [(⟨e2.freshId, e1.freshId, "T", "D", "", ["Go"], e2.now, e2.now⟩ :
            Project).toFields]⟩) := by
      rw [serve_secured lib e3 _ _ _ _ (authenticateToken_bearer lib e3.now e1.now e1.freshId
        "a@x.com" htok h3)]
      simp [handle, listProjects]
    have s4 : serve lib e4
        ⟨[⟨e1.freshId, "A", "a@x.com", lib.bcryptHash "secret1" e1.salt, e1.now⟩],
          [⟨e2.freshId, e1.freshId, "T", "D", "", ["Go"], e2.now, e2.now⟩]⟩
        (.secured (some (bearer (jwtSign lib e1.now e1.freshId "a@x.com"))) (.delete pid)) =
        (⟨[⟨e1.freshId, "A", "a@x.com", lib.bcryptHash "secret1" e1.salt, e1.now⟩], []⟩,
          ⟨200, .obj [("message", .leaf (.str "Project deleted successfully"))]⟩) := by
      rw [serve_secured lib e4 _ _ _ _ (authenticateToken_bearer lib e4.now e1.now e1.freshId
        "a@x.com" htok h4)]
      exact deleteProject_last
        ⟨[⟨e1.freshId, "A", "a@x.com", lib.bcryptHash "secret1" e1.salt, e1.now⟩], []⟩
        _ pid ⟨e2.freshId, e1.freshId, "T", "D", "", ["Go"], e2.now, e2.now⟩ hpid rfl
        (by intro q hq; simp at hq)
    have s5 : serve lib e5
        ⟨[⟨e1.freshId, "A", "a@x.com", lib.bcryptHash "secret1" e1.salt, e1.now⟩], []⟩
        (.secured (some (bearer (jwtSign lib e1.now e1.freshId "a@x.com"))) .list) =
        (⟨[⟨e1.freshId, "A", "a@x.com", lib.bcryptHash "secret1" e1.salt, e1.now⟩], []⟩,
          ⟨200, .arr []⟩) := by
      rw [serve_secured lib e5 _ _ _ _ (authenticateToken_bearer lib e5.now e1.now e1.freshId
        "a@x.com" htok h5)]
      simp [handle, listProjects]
    simp only [serveAll, s1, s2, s3, s4, s5, authBody, publicUser]
  · intro env db caller body id hok hid
    have hfresh := createProject_fresh env db caller body hok
    have hdel : deleteProject (createProject env db caller body).1 caller id =
        (db, ⟨200, .obj [("message", .leaf (.str "Project deleted successfully"))]⟩) := by
      rw [createProject_success env db caller body hok]
      exact deleteProject_last db caller id _ hid rfl hfresh
    refine ⟨hdel, ?_⟩
    rw [hdel]
    refine ⟨_, rfl, ?_⟩
    intro p hp
    have hmem : p ∈ db.projects := by
      have := (List.perm_insertionSort _ _).mem_iff.mp hp
      exact (List.mem_filter.mp this).1
    exact hfresh p hmem

/-- The token that the sample library signs in the scenario is well formed. -/
theorem scenarioToken_ok :
    TokenOk demoLibs ⟨scenarioEnvs.1.freshId, "a@x.com", scenarioEnvs.1.now / 1000,
      scenarioEnvs.1.now / 1000 + SEVEN_DAYS⟩ :=
  demoLibs_tokenOk _ (by decide)

/-- Witness of C14: the scenario with the sample library, and a create followed by a
delete on the sample database. -/
theorem end_to_end_scenario_witness :
    demoLibs.bcryptHash "secret1" scenarioEnvs.1.salt ≠ "" ∧
    scenarioEnvs.2.1.now / 1000 < scenarioEnvs.1.now / 1000 + SEVEN_DAYS ∧
    scenarioEnvs.2.2.2.2.now / 1000 < scenarioEnvs.1.now / 1000 + SEVEN_DAYS ∧
    castObjectId idScenario = some scenarioEnvs.2.1.freshId ∧
    (serveAll demoLibs ⟨[], []⟩
      [(scenarioEnvs.1, .register ⟨some "A", some "a@x.com", some "secret1"⟩),
       (scenarioEnvs.2.1, .secured (some (bearer (jwtSign demoLibs scenarioEnvs.1.now
          scenarioEnvs.1.freshId "a@x.com")))
          (.create ⟨some "T", some "D", none, some (.str "Go"), none⟩)),
       (scenarioEnvs.2.2.1, .secured (some (bearer (jwtSign demoLibs scenarioEnvs.1.now
          scenarioEnvs.1.freshId "a@x.com"))) .list),
       (scenarioEnvs.2.2.2.1, .secured (some (bearer (jwtSign demoLibs scenarioEnvs.1.now
          scenarioEnvs.1.freshId "a@x.com"))) (.delete idScenario)),
       (scenarioEnvs.2.2.2.2, .secured (some (bearer (jwtSign demoLibs scenarioEnvs.1.now
          scenarioEnvs.1.freshId "a@x.com"))) .list)]).2.map (fun r => r.status)
      = [201, 201, 200, 200, 200] ∧
    (createProject demoEnv demoDb callerA ⟨some "T2", some "D2", none, some (.str "Go"), none⟩).2.status
      = 201 ∧
    castObjectId idScenario = some demoEnv.freshId ∧
    deleteProject (createProject demoEnv demoDb callerA
        ⟨some "T2", some "D2", none, some (.str "Go"), none⟩).1 callerA idScenario =
      (demoDb, ⟨200, .obj [("message", .leaf (.str "Project deleted successfully"))]⟩) :=
  ⟨by decide, by decide, by decide, by decide,
    by
      rw [(end_to_end_scenario demoLibs scenarioEnvs.1 scenarioEnvs.2.1 scenarioEnvs.2.2.1
        scenarioEnvs.2.2.2.1 scenarioEnvs.2.2.2.2 idScenario (by decide) scenarioToken_ok
        (by decide) (by decide) (by decide) (by decide) (by decide)).1]
      rfl,
    by decide, by decide,
    ((end_to_end_scenario demoLibs scenarioEnvs.1 scenarioEnvs.2.1 scenarioEnvs.2.2.1
        scenarioEnvs.2.2.2.1 scenarioEnvs.2.2.2.2 idScenario (by decide) scenarioToken_ok
        (by decide) (by decide) (by decide) (by decide) (by decide)).2
      demoEnv demoDb callerA ⟨some "T2", some "D2", none, some (.str "Go"), none⟩ idScenario
      (by decide) (by decide)).1⟩

end CodeNEST
